import Mathlib

/-!
Verification of the salcp workflow engine and statistical layer.

This file gives a shallow embedding of the core of the repository:
the workflow graph model and execution engine (src/workflow/workflow_engine.py,
src/workflow/blocks.py) and the statistical computation layer
(src/core/statistical_tests.py, src/core/ab_testing.py, src/core/data_profiler.py),
together with theorems settling the behavioural claims about them.

Modelling conventions:
- Python dicts become insertion-ordered association lists with
  overwrite-in-place semantics (`assocSet`).
- Python floats become rationals; calls into scipy / statsmodels /
  numpy numerics (shapiro, levene, ttest_ind, mannwhitneyu, f_oneway,
  sqrt, power solvers) are abstracted as explicit oracle parameters,
  since only the surrounding branching and arithmetic is the
  repository's own code.
- A raised Python exception becomes `Except.error` carrying the message;
  `str(KeyError(k))` is modelled as the key name `k`.
- Dict accesses that the repository's own invariants make safe
  (e.g. `self.workflow.blocks[block_id]` for an id produced by the
  topological sort) are modelled totally with a default; all theorems
  carry the corresponding well-formedness hypotheses.
-/

namespace Salcp

/-- Association-list lookup, modelling Python `dict.get` /
`dict[k]` read access on an insertion-ordered dict. -/
def alookup {β : Type} : List (String × β) → String → Option β
  | [], _ => none
  | p :: rest, k => if p.1 = k then some p.2 else alookup rest k

/-- Association-list update, modelling Python `d[k] = v`: overwrite in
place when the key exists (keeping its position), else append. -/
def assocSet {β : Type} (l : List (String × β)) (k : String) (v : β) : List (String × β) :=
  if l.any (fun p => p.1 == k) then
    l.map (fun p => if p.1 = k then (k, v) else p)
  else
    l ++ [(k, v)]

/-- Directed edge between block ports (workflow_engine.py, class Connection). -/
structure Connection where
  from_block : String
  from_output : String
  to_block : String
  to_input : String
deriving DecidableEq, Repr

/-- The closed enum of block kinds (blocks.py, class BlockType). -/
inductive BlockType
  | load_csv | filter_rows | select_columns
  | handle_missing | remove_duplicates | remove_outliers
  | descriptive_stats | correlation | distribution
  | t_test | anova | chi_square | ab_test
  | plot_histogram | plot_scatter | plot_box
  | export_csv | export_report
deriving DecidableEq, Repr

/-- The `.value` string of each BlockType member. -/
def blockTypeValue : BlockType → String
  | .load_csv => "load_csv"
  | .filter_rows => "filter_rows"
  | .select_columns => "select_columns"
  | .handle_missing => "handle_missing"
  | .remove_duplicates => "remove_duplicates"
  | .remove_outliers => "remove_outliers"
  | .descriptive_stats => "descriptive_stats"
  | .correlation => "correlation"
  | .distribution => "distribution"
  | .t_test => "t_test"
  | .anova => "anova"
  | .chi_square => "chi_square"
  | .ab_test => "ab_test"
  | .plot_histogram => "plot_histogram"
  | .plot_scatter => "plot_scatter"
  | .plot_box => "plot_box"
  | .export_csv => "export_csv"
  | .export_report => "export_report"

/-- `BlockType(value)` enum construction from the tag string; raises
(models ValueError) on an unknown tag. -/
def blockTypeOfValue (s : String) : Except String BlockType :=
  if s = "load_csv" then .ok .load_csv
  else if s = "filter_rows" then .ok .filter_rows
  else if s = "select_columns" then .ok .select_columns
  else if s = "handle_missing" then .ok .handle_missing
  else if s = "remove_duplicates" then .ok .remove_duplicates
  else if s = "remove_outliers" then .ok .remove_outliers
  else if s = "descriptive_stats" then .ok .descriptive_stats
  else if s = "correlation" then .ok .correlation
  else if s = "distribution" then .ok .distribution
  else if s = "t_test" then .ok .t_test
  else if s = "anova" then .ok .anova
  else if s = "chi_square" then .ok .chi_square
  else if s = "ab_test" then .ok .ab_test
  else if s = "plot_histogram" then .ok .plot_histogram
  else if s = "plot_scatter" then .ok .plot_scatter
  else if s = "plot_box" then .ok .plot_box
  else if s = "export_csv" then .ok .export_csv
  else if s = "export_report" then .ok .export_report
  else .error ("is not a valid BlockType: " ++ s)

/-- Whether a BlockType is a key of BLOCK_REGISTRY (blocks.py). -/
def registered : BlockType → Bool
  | .load_csv | .filter_rows | .select_columns | .handle_missing
  | .remove_duplicates | .t_test | .ab_test | .descriptive_stats
  | .correlation => true
  | _ => false

/-- A block as held by a Workflow: id, type tag and configured
parameters (blocks.py, class Block).  The run-scoped `inputs` /
`outputs` dicts are modelled as engine-side state (see `boundInputs`),
since they are populated only during an engine run.  Parameter values
are kept abstract in the type `π`. -/
structure Block (π : Type) where
  block_id : String
  block_type : BlockType
  parameters : List (String × π)
deriving DecidableEq

/-- `create_block` (blocks.py): consult BLOCK_REGISTRY, raise on an
unregistered type. -/
def create_block (π : Type) (bt : BlockType) (bid : String) : Except String (Block π) :=
  if registered bt then .ok ⟨bid, bt, []⟩
  else .error ("Unknown block type: " ++ blockTypeValue bt)

/-- The workflow graph (workflow_engine.py, class Workflow): a dict of
blocks by id and a list of connections. -/
structure Workflow (π : Type) where
  name : String
  blocks : List (String × Block π)
  connections : List Connection
deriving DecidableEq

/-- The block ids, in dict insertion order. -/
def blockIds {π : Type} (wf : Workflow π) : List String :=
  wf.blocks.map Prod.fst

/-- `Workflow.add_block` with an explicit id (the uuid-generating
default id is outside the model; `from_dict` always passes ids). -/
def Workflow.add_block {π : Type} (wf : Workflow π) (bt : BlockType) (bid : String) :
    Except String (Workflow π) :=
  (create_block π bt bid).map fun b => { wf with blocks := assocSet wf.blocks bid b }

/-- `Workflow.remove_block`: when present, drop every connection
touching the block, then delete the block. -/
def Workflow.remove_block {π : Type} (wf : Workflow π) (bid : String) : Workflow π :=
  if wf.blocks.any (fun p => p.1 == bid) then
    { wf with
      connections :=
        wf.connections.filter (fun c => !(c.from_block == bid) && !(c.to_block == bid)),
      blocks := wf.blocks.filter (fun p => !(p.1 == bid)) }
  else wf

/-- `Workflow.connect`: reject endpoints not present in the workflow,
else append the connection. -/
def Workflow.connect {π : Type} (wf : Workflow π) (f fo t ti : String) :
    Except String (Workflow π) :=
  if wf.blocks.any (fun p => p.1 == f) ∧ wf.blocks.any (fun p => p.1 == t) then
    .ok { wf with connections := wf.connections ++ [⟨f, fo, t, ti⟩] }
  else .error "Block not found in workflow"

/-- `Workflow.disconnect`: drop all connections from one block to another. -/
def Workflow.disconnect {π : Type} (wf : Workflow π) (f t : String) : Workflow π :=
  { wf with connections :=
      wf.connections.filter (fun c => !(c.from_block == f && c.to_block == t)) }

/-- `Workflow.set_block_parameter`: set a parameter on the named block
when it exists (silently does nothing otherwise). -/
def Workflow.set_block_parameter {π : Type} (wf : Workflow π) (bid pname : String) (v : π) :
    Workflow π :=
  { wf with blocks := wf.blocks.map fun p =>
      if p.1 = bid then (p.1, { p.2 with parameters := assocSet p.2.parameters pname v })
      else p }

/-- The plain serialized form of one block (`to_dict`). -/
structure BlockDict (π : Type) where
  id : String
  type : String
  parameters : List (String × π)
deriving DecidableEq

/-- The plain serialized form of a workflow (`to_dict`). -/
structure WorkflowDict (π : Type) where
  name : String
  blocks : List (BlockDict π)
  connections : List Connection
deriving DecidableEq

/-- `Workflow.to_dict`. -/
def Workflow.to_dict {π : Type} (wf : Workflow π) : WorkflowDict π :=
  { name := wf.name
    blocks := wf.blocks.map fun p =>
      { id := p.1, type := blockTypeValue p.2.block_type, parameters := p.2.parameters }
    connections := wf.connections }

/-- `Workflow.from_dict`: rebuild blocks (type tag then parameters, in
listed order), then replay connections.  Any failing step raises. -/
def Workflow.from_dict (π : Type) (d : WorkflowDict π) : Except String (Workflow π) := do
  let wf0 : Workflow π := ⟨d.name, [], []⟩
  let wf1 ← d.blocks.foldlM (fun (wf : Workflow π) bd => do
      let bt ← blockTypeOfValue bd.type
      let wf ← wf.add_block bt bd.id
      pure (bd.parameters.foldl
        (fun (w : Workflow π) pv => w.set_block_parameter bd.id pv.1 pv.2) wf)) wf0
  d.connections.foldlM
    (fun (wf : Workflow π) c => wf.connect c.from_block c.from_output c.to_block c.to_input)
    wf1

/-! ## Topological sort (WorkflowEngine._topological_sort) -/

/-- The in-degree a block starts with: the number of connections
targeting it (the dict of counters built over blocks, with increments
applied per connection). -/
def indegInit (conns : List Connection) : String → Int :=
  fun b => ((conns.filter (fun c => c.to_block == b)).length : Int)

/-- The adjacency list of a block: targets of its outgoing connections,
in connection order (the `graph` dict). -/
def succsOf (conns : List Connection) (b : String) : List String :=
  (conns.filter (fun c => c.from_block == b)).map (fun c => c.to_block)

/-- Dequeue step body: decrement each successor in order, collecting
(in hit order) those whose counter reaches exactly 0. -/
def processSuccs : List String → (String → Int) → ((String → Int) × List String)
  | [], d => (d, [])
  | n :: ns, d =>
      let dn := d n - 1
      let d1 : String → Int := fun x => if x = n then dn else d x
      let rest := processSuccs ns d1
      if dn = 0 then (rest.1, n :: rest.2) else rest

/-- Kahn's-algorithm work loop (the `while queue` loop).  `fuel` only
bounds the recursion; every theorem supplies enough fuel for the queue
to drain. -/
def kahnLoop (succs : String → List String) :
    Nat → List String → (String → Int) → List String → List String
  | 0, _, _, result => result
  | _ + 1, [], _, result => result
  | fuel + 1, b :: rest, d, result =>
      let pr := processSuccs (succs b) d
      kahnLoop succs fuel (rest ++ pr.2) pr.1 (result ++ [b])

/-- `WorkflowEngine._topological_sort`: seed the queue with the
zero-in-degree blocks in insertion order, run Kahn's algorithm, and
return `[]` when the result misses any block (a cycle). -/
def Workflow.topological_sort {π : Type} (wf : Workflow π) : List String :=
  let ids := blockIds wf
  let d0 := indegInit wf.connections
  let queue0 := ids.filter (fun b => d0 b == 0)
  let result := kahnLoop (succsOf wf.connections) (ids.length + 1) queue0 d0 []
  if result.length = ids.length then result else []

/-! ## Engine execution (WorkflowEngine.execute / _execute_block) -/

/-- One final execution-log record.  The transient "executing" status is
always overwritten before `execute()` returns, so only the final
"success" / "error" states are modelled. -/
structure LogEntry where
  block_id : String
  block_type : String
  status : String
  result_keys : Option (List String)
  error : Option String
deriving DecidableEq, Repr

/-- The behaviour of the polymorphic `block.execute()` bodies, as seen
by the engine: from a block id and its bound inputs (a dict of values,
`none` modelling Python None) to either an output dict or a raised
exception message.  Port values stay abstract in `α`. -/
def Behavior (α : Type) : Type :=
  String → List (String × Option α) → Except String (List (String × α))

/-- `self.results.get(conn.from_block, ()).get(conn.from_output)`:
the upstream value routed along a connection, `none` when the producer
has no stored result or its result lacks the port. -/
def resultLookup {α : Type} (results : List (String × List (String × α)))
    (bid port : String) : Option α :=
  match alookup results bid with
  | none => none
  | some outs => alookup outs port

/-- The input-binding loop of `_execute_block`: for every connection
targeting the block, in connection order, `set_input` the routed value. -/
def boundInputs {α : Type} (conns : List Connection)
    (results : List (String × List (String × α))) (bid : String) :
    List (String × Option α) :=
  conns.foldl
    (fun inp c =>
      if c.to_block = bid then
        assocSet inp c.to_input (resultLookup results c.from_block c.from_output)
      else inp)
    []

/-- A successful block's log record. -/
def successEntry (bid btype : String) (keys : List String) : LogEntry :=
  ⟨bid, btype, "success", some keys, none⟩

/-- A failed block's log record. -/
def errorEntry (bid btype msg : String) : LogEntry :=
  ⟨bid, btype, "error", none, some msg⟩

/-- `block.block_type.value` for the log record (dict access, safe for
ids coming from the topological sort over this workflow). -/
def typeValueOf {π : Type} (wf : Workflow π) (bid : String) : String :=
  match alookup wf.blocks bid with
  | some b => blockTypeValue b.block_type
  | none => ""

/-- The final report of `WorkflowEngine.execute`.  The cycle report
carries no `execution_log` key (`none`); the block-failure report does. -/
inductive Report (α : Type)
  | success (results : List (String × List (String × α))) (execution_log : List LogEntry)
  | error (message : String) (execution_log : Option (List LogEntry))
deriving DecidableEq

/-- The `for block_id in execution_order` loop of `execute`, folding
`_execute_block` over the order: bind inputs, run the block, store the
result and log success, or log the error and abort. -/
def runOrder {π α : Type} (beh : Behavior α) (wf : Workflow π) :
    List String → List (String × List (String × α)) → List LogEntry →
    Except (String × List LogEntry) (List (String × List (String × α)) × List LogEntry)
  | [], results, log => .ok (results, log)
  | bid :: rest, results, log =>
      let inp := boundInputs wf.connections results bid
      match beh bid inp with
      | .ok outs =>
          runOrder beh wf rest (assocSet results bid outs)
            (log ++ [successEntry bid (typeValueOf wf bid) (outs.map Prod.fst)])
      | .error msg =>
          .error (msg, log ++ [errorEntry bid (typeValueOf wf bid) msg])

/-- `WorkflowEngine.execute`. -/
def Workflow.execute {π α : Type} (wf : Workflow π) (beh : Behavior α) : Report α :=
  let order := wf.topological_sort
  if order.isEmpty then
    .error "Workflow has cycles or is invalid" none
  else
    match runOrder beh wf order [] [] with
    | .ok (results, log) => .success results log
    | .error (msg, log) => .error msg (some log)

/-! ## Workflow well-formedness -/

/-- Both endpoints of every connection reference blocks of the workflow
(the invariant `connect` establishes and `remove_block` preserves). -/
def Workflow.connectionsValid {π : Type} (wf : Workflow π) : Prop :=
  ∀ c ∈ wf.connections, c.from_block ∈ blockIds wf ∧ c.to_block ∈ blockIds wf

/-- Block ids are unique (they are dict keys in the source). -/
def Workflow.idsNodup {π : Type} (wf : Workflow π) : Prop :=
  (blockIds wf).Nodup

/-- There is a linear order of the blocks that every connection
respects: the connection graph is a DAG. -/
def Workflow.Acyclic {π : Type} (wf : Workflow π) : Prop :=
  ∃ ord : List String, ord.Perm (blockIds wf) ∧
    ∀ c ∈ wf.connections, ord.indexOf c.from_block < ord.indexOf c.to_block

/-! ## Lemmas: processSuccs -/

/-- The in-degree function after popping the blocks in `popped`:
connections into `t` whose source has not been popped yet. -/
def indegRem (conns : List Connection) (popped : List String) : String → Int :=
  fun t => ((conns.filter
    (fun c => c.to_block == t && !(decide (c.from_block ∈ popped)))).length : Int)

theorem processSuccs_cons_fst (n : String) (ns : List String) (d : String → Int) :
    (processSuccs (n :: ns) d).1
      = (processSuccs ns (fun x => if x = n then d n - 1 else d x)).1 := by
  simp only [processSuccs]
  split <;> rfl

theorem processSuccs_cons_snd (n : String) (ns : List String) (d : String → Int) :
    (processSuccs (n :: ns) d).2
      = (if d n - 1 = 0 then
          n :: (processSuccs ns (fun x => if x = n then d n - 1 else d x)).2
        else (processSuccs ns (fun x => if x = n then d n - 1 else d x)).2) := by
  simp only [processSuccs]
  split <;> rfl

theorem processSuccs_fst (ns : List String) (d : String → Int) (x : String) :
    (processSuccs ns d).1 x = d x - (ns.count x : Int) := by
  induction ns generalizing d with
  | nil => simp [processSuccs]
  | cons n ns ih =>
    rw [processSuccs_cons_fst, ih]
    by_cases hx : x = n
    · subst hx
      rw [if_pos rfl, List.count_cons_self]
      push_cast
      ring
    · rw [if_neg hx, List.count_cons_of_ne hx]

theorem processSuccs_mem (ns : List String) (d : String → Int) (t : String) :
    t ∈ (processSuccs ns d).2 ↔ (t ∈ ns ∧ 1 ≤ d t ∧ d t ≤ (ns.count t : Int)) := by
  induction ns generalizing d with
  | nil => simp [processSuccs]
  | cons n ns ih =>
    rw [processSuccs_cons_snd]
    by_cases ht : t = n
    · subst ht
      have hd1 : (fun x => if x = t then d t - 1 else d x) t = d t - 1 := by simp
      have hcnt : ((t :: ns).count t : Int) = (ns.count t : Int) + 1 := by
        rw [List.count_cons_self]; push_cast; ring
      by_cases hz : d t - 1 = 0
      · rw [if_pos hz]
        have hc0 : (0 : Int) ≤ (ns.count t : Int) := Int.ofNat_nonneg _
        constructor
        · intro _
          exact ⟨List.mem_cons_self t ns, by omega, by rw [hcnt]; omega⟩
        · intro _
          exact List.mem_cons_self t _
      · rw [if_neg hz, ih]
        simp only [hd1, if_pos rfl, if_true, ite_true]
        constructor
        · rintro ⟨hm, h1, h2⟩
          refine ⟨List.mem_cons_of_mem _ hm, by omega, ?_⟩
          rw [hcnt]; omega
        · rintro ⟨hm, h1, h2⟩
          rw [hcnt] at h2
          have hcp : 0 < ns.count t := by omega
          exact ⟨List.count_pos_iff.mp hcp, by omega, by omega⟩
    · have hd1 : (fun x => if x = n then d n - 1 else d x) t = d t := by simp [ht]
      have hcnt : (n :: ns).count t = ns.count t := List.count_cons_of_ne ht ns
      by_cases hz : d n - 1 = 0
      · rw [if_pos hz, List.mem_cons]
        simp only [ht, false_or]
        rw [ih]
        simp only [hd1, hcnt]
        rw [List.mem_cons]
        simp only [ht, false_or]
      · rw [if_neg hz, ih]
        simp only [hd1, hcnt]
        rw [List.mem_cons]
        simp only [ht, false_or]

theorem processSuccs_nodup (ns : List String) (d : String → Int) :
    (processSuccs ns d).2.Nodup := by
  induction ns generalizing d with
  | nil => simp [processSuccs]
  | cons n ns ih =>
    rw [processSuccs_cons_snd]
    by_cases hz : d n - 1 = 0
    · rw [if_pos hz]
      refine List.Nodup.cons ?_ (ih _)
      intro hmem
      rw [processSuccs_mem] at hmem
      have h1 : (1 : Int) ≤ d n - 1 := by
        have := hmem.2.1
        simpa using this
      omega
    · rw [if_neg hz]
      exact ih _

/-! ## The Kahn loop invariant -/

theorem indegRem_nonneg (conns : List Connection) (popped : List String) (t : String) :
    0 ≤ indegRem conns popped t :=
  Int.ofNat_nonneg _

theorem indegRem_zero_iff (conns : List Connection) (popped : List String) (t : String) :
    indegRem conns popped t = 0 ↔
      ∀ c ∈ conns, c.to_block = t → c.from_block ∈ popped := by
  unfold indegRem
  rw [Nat.cast_eq_zero, List.length_eq_zero, List.filter_eq_nil]
  constructor
  · intro h c hc hct
    by_contra hfrom
    have := h c hc
    simp [hct, hfrom] at this
  · intro h c hc
    by_cases hct : c.to_block = t
    · have := h c hc hct
      simp [hct, this]
    · simp [hct]

theorem succsOf_count (conns : List Connection) (b t : String) :
    (succsOf conns b).count t
      = (conns.filter (fun c => c.to_block == t && c.from_block == b)).length := by
  induction conns with
  | nil => simp [succsOf]
  | cons c cs ih =>
    simp only [succsOf] at ih ⊢
    by_cases hf : c.from_block = b
    · have hfb : (c.from_block == b) = true := by simpa using hf
      by_cases ht2 : c.to_block = t
      · have htb : (c.to_block == t) = true := by simpa using ht2
        have hcc : (t == c.to_block) = true := by simp [ht2]
        simp [List.filter_cons, hfb, htb, List.count_cons, hcc, ih]
      · have htb : (c.to_block == t) = false := by simpa using ht2
        have hcc : (t == c.to_block) = false := by
          simp only [beq_eq_false_iff_ne, ne_eq]
          exact fun h => ht2 h.symm
        simp [List.filter_cons, hfb, htb, List.count_cons, hcc, ih]
    · have hfb : (c.from_block == b) = false := by simpa using hf
      simp [List.filter_cons, hfb, ih]

theorem mem_succsOf (conns : List Connection) (b t : String) :
    t ∈ succsOf conns b ↔ ∃ c ∈ conns, c.from_block = b ∧ c.to_block = t := by
  simp only [succsOf, List.mem_map, List.mem_filter, beq_iff_eq]
  constructor
  · rintro ⟨c, ⟨hc, hf⟩, ht⟩
    exact ⟨c, hc, hf, ht⟩
  · rintro ⟨c, hc, hf, ht⟩
    exact ⟨c, ⟨hc, hf⟩, ht⟩

theorem filter_length_mono {α : Type} (l : List α) (P Q : α → Bool)
    (h : ∀ c ∈ l, P c = true → Q c = true) :
    (l.filter P).length ≤ (l.filter Q).length := by
  induction l with
  | nil => simp
  | cons c cs ih =>
    have ih2 := ih (fun x hx => h x (List.mem_cons_of_mem _ hx))
    by_cases hP : P c
    · have hQ := h c (List.mem_cons_self _ _) hP
      simp [List.filter_cons, hP, hQ]
      omega
    · by_cases hQ : Q c <;> simp [List.filter_cons, hP, hQ] <;> omega

theorem filter_split {α : Type} (l : List α) (P Q : α → Bool) :
    (l.filter P).length
      = (l.filter (fun c => P c && Q c)).length
        + (l.filter (fun c => P c && !(Q c))).length := by
  induction l with
  | nil => simp
  | cons c cs ih =>
    by_cases hP : P c <;> by_cases hQ : Q c <;>
      simp [List.filter_cons, hP, hQ, ih] <;> omega

theorem indegRem_snoc (conns : List Connection) (popped : List String) (b : String)
    (hb : b ∉ popped) (t : String) :
    indegRem conns (popped ++ [b]) t
      = indegRem conns popped t - ((succsOf conns b).count t : Int) := by
  rw [succsOf_count]
  unfold indegRem
  have hsplit := filter_split conns
    (fun c => c.to_block == t && !(decide (c.from_block ∈ popped)))
    (fun c => c.from_block == b)
  have heq1 : conns.filter (fun c =>
        (c.to_block == t && !(decide (c.from_block ∈ popped))) && (c.from_block == b))
      = conns.filter (fun c => c.to_block == t && c.from_block == b) := by
    apply List.filter_congr
    intro c _
    by_cases h3 : c.from_block = b
    · simp [h3, hb]
    · have hfb : (c.from_block == b) = false := by simpa using h3
      simp [hfb]
  have heq2 : conns.filter
        (fun c => c.to_block == t && !(decide (c.from_block ∈ popped ++ [b])))
      = conns.filter (fun c =>
          (c.to_block == t && !(decide (c.from_block ∈ popped))) && !(c.from_block == b)) := by
    apply List.filter_congr
    intro c _
    by_cases h3 : c.from_block = b
    · simp [h3, List.mem_append]
    · have hfb : (c.from_block == b) = false := by simpa using h3
      simp [List.mem_append, h3, hfb]
  rw [heq2, hsplit, heq1]
  push_cast
  ring

theorem indegRem_nil (conns : List Connection) (t : String) :
    indegRem conns [] t = indegInit conns t := by
  unfold indegInit indegRem
  have heq : conns.filter
        (fun c => c.to_block == t && !(decide (c.from_block ∈ ([] : List String))))
      = conns.filter (fun c => c.to_block == t) := by
    apply List.filter_congr
    intro c _
    simp
  rw [heq]

/-- The loop invariant of Kahn's algorithm: `result` is the popped
prefix, `queue` the pending zero-degree blocks, `d` the current counter
dict. -/
structure KahnInv (conns : List Connection) (ids : List String)
    (queue : List String) (d : String → Int) (result : List String) : Prop where
  nodup : (result ++ queue).Nodup
  subset : ∀ b ∈ result ++ queue, b ∈ ids
  deg : ∀ t, d t = indegRem conns result t
  queueReady : ∀ b ∈ queue, ∀ c ∈ conns, c.to_block = b → c.from_block ∈ result
  covered : ∀ b ∈ ids, indegRem conns result b = 0 → b ∈ result ++ queue
  ordered : ∀ k : Nat, ∀ c ∈ conns,
    c.to_block ∈ result.take (k + 1) → c.from_block ∈ result.take k

theorem kahnInv_init (conns : List Connection) (ids : List String) (hnd : ids.Nodup) :
    KahnInv conns ids (ids.filter (fun b => indegInit conns b == 0))
      (indegInit conns) [] := by
  have hfz : ∀ b, (indegInit conns b == 0) = true ↔ indegInit conns b = 0 := by
    intro b; exact beq_iff_eq
  refine ⟨?_, ?_, ?_, ?_, ?_, ?_⟩
  · simpa using hnd.filter _
  · intro b hb
    simp only [List.nil_append] at hb
    exact (List.mem_filter.mp hb).1
  · intro t
    rw [indegRem_nil]
  · intro b hb c hc hct
    have hz : indegInit conns b = 0 := (hfz b).mp (List.mem_filter.mp hb).2
    exfalso
    unfold indegInit at hz
    rw [Nat.cast_eq_zero, List.length_eq_zero, List.filter_eq_nil] at hz
    have := hz c hc
    simp [hct] at this
  · intro b hb hz
    simp only [List.nil_append]
    refine List.mem_filter.mpr ⟨hb, (hfz b).mpr ?_⟩
    have := indegRem_nil conns b
    omega
  · intro k c _ hct
    simp at hct

theorem indegRem_ne_zero_elim (conns : List Connection) (popped : List String) (t : String)
    (h : indegRem conns popped t ≠ 0) :
    ∃ c ∈ conns, c.to_block = t ∧ c.from_block ∉ popped := by
  by_contra hno
  push_neg at hno
  exact h ((indegRem_zero_iff conns popped t).mpr hno)

theorem kahnInv_step (conns : List Connection) (ids : List String)
    (hv : ∀ c ∈ conns, c.from_block ∈ ids ∧ c.to_block ∈ ids)
    (b : String) (rest : List String) (d : String → Int) (result : List String)
    (inv : KahnInv conns ids (b :: rest) d result) :
    KahnInv conns ids (rest ++ (processSuccs (succsOf conns b) d).2)
      (processSuccs (succsOf conns b) d).1 (result ++ [b]) := by
  obtain ⟨hnodup, hsubset, hdeg, hready, hcov, hord⟩ := inv
  have hresNodup : result.Nodup := (List.nodup_append.mp hnodup).1
  have hdisj : result.Disjoint (b :: rest) := (List.nodup_append.mp hnodup).2.2
  have hbr : b ∉ result := fun h => hdisj h (List.mem_cons_self _ _)
  have hclosed : ∀ c ∈ conns, c.to_block ∈ result → c.from_block ∈ result := by
    intro c hc hct
    have h1 : c.to_block ∈ result.take (result.length + 1) := by
      rw [List.take_of_length_le (by omega)]
      exact hct
    have h2 := hord result.length c hc h1
    rwa [List.take_length] at h2
  have hdeg2 : ∀ t, (processSuccs (succsOf conns b) d).1 t
      = indegRem conns (result ++ [b]) t := by
    intro t
    rw [processSuccs_fst, hdeg t, indegRem_snoc conns result b hbr t]
  have hnew : ∀ t, t ∈ (processSuccs (succsOf conns b) d).2 ↔
      (t ∈ succsOf conns b ∧ 1 ≤ d t ∧ d t ≤ ((succsOf conns b).count t : Int)) :=
    fun t => processSuccs_mem _ d t
  have hfresh : ∀ t ∈ (processSuccs (succsOf conns b) d).2, t ∉ result ++ b :: rest := by
    intro t ht hmem
    have h1 : 1 ≤ d t := ((hnew t).mp ht).2.1
    rw [hdeg t] at h1
    obtain ⟨c, hc, hct, hcf⟩ := indegRem_ne_zero_elim conns result t (by omega)
    rcases List.mem_append.mp hmem with hmr | hmq
    · exact hcf (hclosed c hc (hct ▸ hmr))
    · exact hcf (hready t hmq c hc hct)
  have happ : (result ++ [b]) ++ (rest ++ (processSuccs (succsOf conns b) d).2)
      = (result ++ b :: rest) ++ (processSuccs (succsOf conns b) d).2 := by
    simp
  refine ⟨?_, ?_, hdeg2, ?_, ?_, ?_⟩
  · rw [happ, List.nodup_append]
    exact ⟨hnodup, processSuccs_nodup _ _, fun x hx hxn => hfresh x hxn hx⟩
  · intro x hx
    rw [happ] at hx
    rcases List.mem_append.mp hx with hx1 | hx2
    · exact hsubset x hx1
    · obtain ⟨hm, _, _⟩ := (hnew x).mp hx2
      obtain ⟨c, hc, hcf, hct⟩ := (mem_succsOf conns b x).mp hm
      exact hct ▸ (hv c hc).2
  · intro x hx c hc hct
    rcases List.mem_append.mp hx with hx1 | hx2
    · exact List.mem_append_left _ (hready x (List.mem_cons_of_mem _ hx1) c hc hct)
    · obtain ⟨hm, h1, h2⟩ := (hnew x).mp hx2
      have hfst : (processSuccs (succsOf conns b) d).1 x
          = d x - ((succsOf conns b).count x : Int) := processSuccs_fst _ d x
      have hge : 0 ≤ (processSuccs (succsOf conns b) d).1 x := by
        rw [hdeg2 x]
        exact indegRem_nonneg _ _ _
      have hz : indegRem conns (result ++ [b]) x = 0 := by
        rw [← hdeg2 x]
        omega
      exact (indegRem_zero_iff conns (result ++ [b]) x).mp hz c hc hct
  · intro t htids hz
    rw [happ]
    by_cases hz0 : indegRem conns result t = 0
    · exact List.mem_append_left _ (hcov t htids hz0)
    · have h1 : 1 ≤ indegRem conns result t := by
        have := indegRem_nonneg conns result t
        omega
      have hsrc : ∀ c ∈ conns, c.to_block = t → c.from_block ∉ result →
          c.from_block = b := by
        intro c hc hct hcf
        have hmem := (indegRem_zero_iff conns (result ++ [b]) t).mp hz c hc hct
        rcases List.mem_append.mp hmem with h | h
        · exact absurd h hcf
        · simpa using h
      obtain ⟨c, hc, hct, hcf⟩ := indegRem_ne_zero_elim conns result t hz0
      have hcb : c.from_block = b := hsrc c hc hct hcf
      have hmem : t ∈ succsOf conns b := (mem_succsOf conns b t).mpr ⟨c, hc, hcb, hct⟩
      have hbound : indegRem conns result t ≤ ((succsOf conns b).count t : Int) := by
        have hmono := filter_length_mono conns
          (fun c => c.to_block == t && !(decide (c.from_block ∈ result)))
          (fun c => c.to_block == t && c.from_block == b) ?_
        · rw [succsOf_count]
          unfold indegRem
          exact_mod_cast hmono
        · intro c2 hc2 hP
          simp only [Bool.and_eq_true, beq_iff_eq, Bool.not_eq_true',
            decide_eq_false_iff_not] at hP ⊢
          exact ⟨hP.1, hsrc c2 hc2 hP.1 hP.2⟩
      have htn : t ∈ (processSuccs (succsOf conns b) d).2 :=
        (hnew t).mpr ⟨hmem, by rw [hdeg t]; omega, by rw [hdeg t]; exact hbound⟩
      exact List.mem_append_right _ htn
  · intro k c hc hct
    by_cases hk : k + 1 ≤ result.length
    · have e1 : (result ++ [b]).take (k + 1) = result.take (k + 1) :=
        List.take_append_of_le_length hk
      have e2 : (result ++ [b]).take k = result.take k :=
        List.take_append_of_le_length (by omega)
      rw [e1] at hct
      rw [e2]
      exact hord k c hc hct
    · push_neg at hk
      have hlek : result.length ≤ k := by omega
      have hct2 : c.to_block ∈ result ++ [b] := List.take_subset _ _ hct
      have hfrom : c.from_block ∈ result := by
        rcases List.mem_append.mp hct2 with h | h
        · exact hclosed c hc h
        · have hb2 : c.to_block = b := by simpa using h
          exact hready b (List.mem_cons_self _ _) c hc hb2
      rw [List.take_append_eq_append_take]
      refine List.mem_append_left _ ?_
      rw [List.take_of_length_le hlek]
      exact hfrom

theorem kahn_run (conns : List Connection) (ids : List String)
    (hv : ∀ c ∈ conns, c.from_block ∈ ids ∧ c.to_block ∈ ids) :
    ∀ (fuel : Nat) (queue : List String) (d : String → Int) (result : List String),
      KahnInv conns ids queue d result →
      ids.length < fuel + result.length →
      KahnInv conns ids []
        (fun t => indegRem conns (kahnLoop (succsOf conns) fuel queue d result) t)
        (kahnLoop (succsOf conns) fuel queue d result) := by
  intro fuel
  induction fuel with
  | zero =>
    intro queue d result inv hlen
    exfalso
    have hn : result.Nodup := (List.nodup_append.mp inv.nodup).1
    have hsub : result ⊆ ids := fun x hx => inv.subset x (List.mem_append_left _ hx)
    have := (List.subperm_of_subset hn hsub).length_le
    omega
  | succ fuel ih =>
    intro queue d result inv hlen
    cases queue with
    | nil =>
      have hres : kahnLoop (succsOf conns) (fuel + 1) [] d result = result := rfl
      rw [hres]
      refine ⟨?_, ?_, fun t => rfl, ?_, ?_, ?_⟩
      · exact inv.nodup
      · exact inv.subset
      · intro x hx
        simp at hx
      · intro x hx hz
        exact inv.covered x hx hz
      · exact inv.ordered
    | cons b rest =>
      have hstep := kahnInv_step conns ids hv b rest d result inv
      have hlen2 : ids.length < fuel + (result ++ [b]).length := by
        simp only [List.length_append, List.length_cons, List.length_nil]
        omega
      have hres : kahnLoop (succsOf conns) (fuel + 1) (b :: rest) d result
          = kahnLoop (succsOf conns) fuel
              (rest ++ (processSuccs (succsOf conns b) d).2)
              (processSuccs (succsOf conns b) d).1 (result ++ [b]) := rfl
      rw [hres]
      exact ih _ _ _ hstep hlen2

/-! ## Topological sort: soundness and completeness -/

theorem indexOf_lt_of_mem_take {a : String} :
    ∀ {l : List String} {n : Nat}, a ∈ l.take n → l.indexOf a < n := by
  intro l
  induction l with
  | nil => intro n h; simp at h
  | cons x xs ih =>
    intro n h
    cases n with
    | zero => simp at h
    | succ n =>
      rw [List.take_succ_cons] at h
      by_cases hax : x = a
      · rw [List.indexOf_cons_eq _ hax]
        omega
      · rcases List.mem_cons.mp h with h1 | h2
        · exact absurd h1.symm hax
        · rw [List.indexOf_cons_ne _ hax]
          have := ih h2
          omega

theorem mem_take_succ_indexOf {a : String} :
    ∀ {l : List String}, a ∈ l → a ∈ l.take (l.indexOf a + 1) := by
  intro l
  induction l with
  | nil => intro h; simp at h
  | cons x xs ih =>
    intro h
    by_cases hax : x = a
    · rw [List.indexOf_cons_eq _ hax, List.take_succ_cons]
      simp [hax]
    · rcases List.mem_cons.mp h with h1 | h2
      · exact absurd h1.symm hax
      · rw [List.indexOf_cons_ne _ hax, List.take_succ_cons]
        exact List.mem_cons_of_mem _ (ih h2)

theorem exists_first_mem (ord : List String) (P : String → Prop) [DecidablePred P]
    (h : ∃ x ∈ ord, P x) :
    ∃ a ∈ ord, P a ∧ ∀ b ∈ ord, P b → ord.indexOf a ≤ ord.indexOf b := by
  induction ord with
  | nil => simp at h
  | cons o os ih =>
    by_cases hP : P o
    · refine ⟨o, List.mem_cons_self _ _, hP, ?_⟩
      intro b _ _
      rw [List.indexOf_cons_self]
      omega
    · obtain ⟨x, hx, hPx⟩ := h
      have hxos : x ∈ os := by
        rcases List.mem_cons.mp hx with h1 | h2
        · exact absurd (h1 ▸ hPx) hP
        · exact h2
      obtain ⟨a, ha, hPa, hmin⟩ := ih ⟨x, hxos, hPx⟩
      refine ⟨a, List.mem_cons_of_mem _ ha, hPa, ?_⟩
      intro b hb hPb
      have hbo : b ≠ o := fun hbo => hP (hbo ▸ hPb)
      have hbos : b ∈ os := by
        rcases List.mem_cons.mp hb with h1 | h2
        · exact absurd h1 hbo
        · exact h2
      have hao : o ≠ a := fun hoa => hP (hoa ▸ hPa)
      have hbo2 : o ≠ b := fun hob => hbo hob.symm
      rw [List.indexOf_cons_ne _ hao, List.indexOf_cons_ne _ hbo2]
      have := hmin b hbos hPb
      omega

theorem topological_sort_eq {π : Type} (wf : Workflow π) :
    wf.topological_sort =
      (if (kahnLoop (succsOf wf.connections) ((blockIds wf).length + 1)
            ((blockIds wf).filter (fun b => indegInit wf.connections b == 0))
            (indegInit wf.connections) []).length = (blockIds wf).length
       then kahnLoop (succsOf wf.connections) ((blockIds wf).length + 1)
            ((blockIds wf).filter (fun b => indegInit wf.connections b == 0))
            (indegInit wf.connections) []
       else []) := rfl

/-- The final Kahn state for a workflow: the loop has drained and the
invariant holds of the computed list. -/
theorem topological_sort_final {π : Type} (wf : Workflow π)
    (hv : wf.connectionsValid) (hnd : wf.idsNodup) :
    KahnInv wf.connections (blockIds wf) []
      (fun t => indegRem wf.connections
        (kahnLoop (succsOf wf.connections) ((blockIds wf).length + 1)
          ((blockIds wf).filter (fun b => indegInit wf.connections b == 0))
          (indegInit wf.connections) []) t)
      (kahnLoop (succsOf wf.connections) ((blockIds wf).length + 1)
        ((blockIds wf).filter (fun b => indegInit wf.connections b == 0))
        (indegInit wf.connections) []) := by
  have hinit := kahnInv_init wf.connections (blockIds wf) hnd
  exact kahn_run wf.connections (blockIds wf) hv _ _ _ _ hinit (by omega)

theorem kahnInv_ordering (conns : List Connection) (ids : List String)
    (d : String → Int) (res : List String)
    (inv : KahnInv conns ids [] d res) :
    ∀ c ∈ conns, c.to_block ∈ res →
      res.indexOf c.from_block < res.indexOf c.to_block := by
  intro c hc hct
  have h1 : c.to_block ∈ res.take (res.indexOf c.to_block + 1) :=
    mem_take_succ_indexOf hct
  have h2 := inv.ordered (res.indexOf c.to_block) c hc h1
  exact indexOf_lt_of_mem_take h2

theorem kahnInv_complete (conns : List Connection) (ids : List String)
    (hv : ∀ c ∈ conns, c.from_block ∈ ids ∧ c.to_block ∈ ids)
    (d : String → Int) (res : List String)
    (inv : KahnInv conns ids [] d res)
    (ord : List String) (hperm : ord.Perm ids)
    (hord : ∀ c ∈ conns, ord.indexOf c.from_block < ord.indexOf c.to_block) :
    ∀ x ∈ ids, x ∈ res := by
  by_contra hno
  push_neg at hno
  obtain ⟨u, hu, hur⟩ := hno
  obtain ⟨a, haord, ⟨haids, hares⟩, hmin⟩ :=
    exists_first_mem ord (fun x => x ∈ ids ∧ x ∉ res)
      ⟨u, hperm.mem_iff.mpr hu, hu, hur⟩
  have hnz : indegRem conns res a ≠ 0 := by
    intro hz
    have := inv.covered a haids hz
    simp only [List.append_nil] at this
    exact hares this
  obtain ⟨c, hc, hct, hcf⟩ := indegRem_ne_zero_elim conns res a hnz
  have hfids : c.from_block ∈ ids := (hv c hc).1
  have hford : c.from_block ∈ ord := hperm.mem_iff.mpr hfids
  have hge := hmin c.from_block hford ⟨hfids, hcf⟩
  have hlt := hord c hc
  rw [hct] at hlt
  omega

/-- `_topological_sort` on an acyclic workflow returns a permutation of
the block ids in which every connection goes forward; on a cyclic
workflow (or one whose Kahn run misses a block) it returns `[]`. -/
theorem topological_sort_complete {π : Type} (wf : Workflow π)
    (hv : wf.connectionsValid) (hnd : wf.idsNodup) (hac : wf.Acyclic) :
    wf.topological_sort.Perm (blockIds wf) ∧
      ∀ c ∈ wf.connections,
        wf.topological_sort.indexOf c.from_block
          < wf.topological_sort.indexOf c.to_block := by
  obtain ⟨ord, hperm, hord⟩ := hac
  have hfin := topological_sort_final wf hv hnd
  set res := kahnLoop (succsOf wf.connections) ((blockIds wf).length + 1)
    ((blockIds wf).filter (fun b => indegInit wf.connections b == 0))
    (indegInit wf.connections) [] with hres
  have hresNodup : res.Nodup := by
    have := hfin.nodup
    simpa using this
  have hsub : res ⊆ blockIds wf := by
    intro x hx
    exact hfin.subset x (by simpa using hx)
  have hcompl := kahnInv_complete wf.connections (blockIds wf) hv _ res hfin ord hperm hord
  have hperm2 : res.Perm (blockIds wf) := by
    refine (List.subperm_of_subset hresNodup hsub).perm_of_length_le ?_
    have := (List.subperm_of_subset hnd (fun x hx => hcompl x hx)).length_le
    omega
  have hlen : res.length = (blockIds wf).length := hperm2.length_eq
  have hts : wf.topological_sort = res := by
    rw [topological_sort_eq wf, ← hres, if_pos hlen]
  rw [hts]
  refine ⟨hperm2, ?_⟩
  intro c hc
  apply kahnInv_ordering wf.connections (blockIds wf) _ res hfin c hc
  exact hperm2.mem_iff.mpr (hv c hc).2

/-- When `_topological_sort` does not return `[]`, the workflow is
acyclic: the returned order itself witnesses a DAG. -/
theorem topological_sort_sound {π : Type} (wf : Workflow π)
    (hv : wf.connectionsValid) (hnd : wf.idsNodup)
    (hne : wf.topological_sort ≠ []) : wf.Acyclic := by
  have hfin := topological_sort_final wf hv hnd
  set res := kahnLoop (succsOf wf.connections) ((blockIds wf).length + 1)
    ((blockIds wf).filter (fun b => indegInit wf.connections b == 0))
    (indegInit wf.connections) [] with hres
  by_cases hlen : res.length = (blockIds wf).length
  · have hts : wf.topological_sort = res := by
      rw [topological_sort_eq wf, ← hres, if_pos hlen]
    have hresNodup : res.Nodup := by simpa using hfin.nodup
    have hsub : res ⊆ blockIds wf := fun x hx => hfin.subset x (by simpa using hx)
    have hperm2 : res.Perm (blockIds wf) :=
      (List.subperm_of_subset hresNodup hsub).perm_of_length_le (by omega)
    refine ⟨res, hperm2, ?_⟩
    intro c hc
    apply kahnInv_ordering wf.connections (blockIds wf) _ res hfin c hc
    exact hperm2.mem_iff.mpr (hv c hc).2
  · exfalso
    apply hne
    rw [topological_sort_eq wf, ← hres, if_neg hlen]

/-! ## Engine-level execution lemmas -/

theorem execute_eq {π α : Type} (wf : Workflow π) (beh : Behavior α) :
    wf.execute beh =
      (if wf.topological_sort.isEmpty then
        Report.error "Workflow has cycles or is invalid" none
      else
        match runOrder beh wf wf.topological_sort [] [] with
        | .ok (results, log) => Report.success results log
        | .error (msg, log) => Report.error msg (some log)) := rfl

theorem runOrder_prefix_fail {π α : Type} (beh : Behavior α) (wf : Workflow π) (msg : String) :
    ∀ (pre : List String) (B : String) (post : List String)
      (results : List (String × List (String × α))) (log : List LogEntry),
      (∀ bid ∈ pre, ∀ inp, ∃ outs, beh bid inp = .ok outs) →
      (∀ inp, beh B inp = .error msg) →
      ∃ entries : List LogEntry,
        runOrder beh wf (pre ++ B :: post) results log
          = .error (msg, log ++ entries ++ [errorEntry B (typeValueOf wf B) msg]) ∧
        entries.map (fun e => e.block_id) = pre ∧
        (∀ e ∈ entries, e.status = "success") := by
  intro pre
  induction pre with
  | nil =>
    intro B post results log _ hfail
    refine ⟨[], ?_, rfl, by simp⟩
    simp only [List.nil_append, runOrder, hfail]
    simp
  | cons p pre ih =>
    intro B post results log hok hfail
    obtain ⟨outs, houts⟩ :=
      hok p (List.mem_cons_self _ _) (boundInputs wf.connections results p)
    have hok2 : ∀ bid ∈ pre, ∀ inp, ∃ o, beh bid inp = .ok o :=
      fun bid hb inp => hok bid (List.mem_cons_of_mem _ hb) inp
    obtain ⟨entries, hrun, hmap, hstat⟩ := ih B post
      (assocSet results p outs)
      (log ++ [successEntry p (typeValueOf wf p) (outs.map Prod.fst)]) hok2 hfail
    refine ⟨successEntry p (typeValueOf wf p) (outs.map Prod.fst) :: entries, ?_, ?_, ?_⟩
    · have : runOrder beh wf ((p :: pre) ++ B :: post) results log
          = runOrder beh wf (pre ++ B :: post) (assocSet results p outs)
              (log ++ [successEntry p (typeValueOf wf p) (outs.map Prod.fst)]) := by
        simp only [List.cons_append, runOrder, houts]
        rfl
      rw [this, hrun]
      simp [List.append_assoc]
    · simp [hmap, successEntry]
    · intro e he
      rcases List.mem_cons.mp he with h1 | h2
      · rw [h1]; rfl
      · exact hstat e h2

/-- A concrete empty workflow (a trivial DAG). -/
def emptyWorkflow : Workflow Unit :=
  { name := "Untitled Workflow", blocks := [], connections := [] }

/-- A block behaviour that always succeeds with no outputs. -/
def trivialBehavior : Behavior Unit := fun _ _ => .ok []

/-- A two-block workflow a ⟶ b used as a concrete witness. -/
def wfA : Workflow Unit :=
  { name := "w"
    blocks := [("a", ⟨"a", .load_csv, []⟩), ("b", ⟨"b", .descriptive_stats, []⟩)]
    connections := [⟨"a", "data", "b", "data"⟩] }

/-- A behaviour where block b raises and everything else succeeds. -/
def behFailB : Behavior Unit := fun bid _ =>
  if bid = "b" then .error "boom" else .ok [("data", ())]

/-- C1 counterexample: the empty workflow is a DAG, yet `execute()`
returns the cycle-error report (`if not execution_order` treats the
empty order as a cycle). -/
theorem c1_counterexample :
    emptyWorkflow.Acyclic ∧
      emptyWorkflow.execute trivialBehavior
        = Report.error "Workflow has cycles or is invalid" none := by
  constructor
  · refine ⟨[], ?_, ?_⟩
    · rfl
    · intro c hc
      simp [emptyWorkflow] at hc
  · rfl

/-- C1 (amended): for every well-formed Workflow with at least one
block whose connection graph is a DAG, the Kahn order computed by
`execute()` contains every block exactly once with each block after all
blocks it receives a connection from; for every well-formed Workflow
whose graph has a cycle — or which has no blocks at all — `execute()`
returns the report with status error and the cycle message, without
invoking any block's `execute()` (the result does not depend on the
behaviours at all). -/
theorem c1_topology {π α : Type} (wf : Workflow π) (beh : Behavior α)
    (hv : wf.connectionsValid) (hnd : wf.idsNodup) :
    ((wf.blocks ≠ [] ∧ wf.Acyclic) →
      wf.topological_sort.Perm (blockIds wf) ∧
      (∀ c ∈ wf.connections,
        wf.topological_sort.indexOf c.from_block
          < wf.topological_sort.indexOf c.to_block)) ∧
    ((¬ wf.Acyclic ∨ wf.blocks = []) →
      wf.execute beh = Report.error "Workflow has cycles or is invalid" none) := by
  constructor
  · rintro ⟨_, hac⟩
    exact topological_sort_complete wf hv hnd hac
  · intro h
    have hts : wf.topological_sort = [] := by
      rcases h with hcyc | hempty
      · by_contra hne
        exact hcyc (topological_sort_sound wf hv hnd hne)
      · have hids : blockIds wf = [] := by simp [blockIds, hempty]
        rw [topological_sort_eq, hids]
        rfl
    rw [execute_eq, hts]
    rfl

/-- C1 witness: the two-block DAG workflow instantiates the theorem. -/
theorem c1_witness :
    ((wfA.blocks ≠ [] ∧ wfA.Acyclic) →
      wfA.topological_sort.Perm (blockIds wfA) ∧
      (∀ c ∈ wfA.connections,
        wfA.topological_sort.indexOf c.from_block
          < wfA.topological_sort.indexOf c.to_block)) ∧
    ((¬ wfA.Acyclic ∨ wfA.blocks = []) →
      wfA.execute trivialBehavior
        = Report.error "Workflow has cycles or is invalid" none) :=
  c1_topology wfA trivialBehavior
    (by unfold Workflow.connectionsValid; decide)
    (by unfold Workflow.idsNodup; decide)

/-- C2 (as stated): when all blocks before B in the computed execution
order succeed and B's `execute()` raises, `execute()` returns status
error carrying the exception message, and the execution log is exactly
one success entry per block before B, in order, followed by the error
entry for B — nothing for any later block. -/
theorem c2_fail_fast {π α : Type} (wf : Workflow π) (beh : Behavior α)
    (msg : String) (pre : List String) (B : String) (post : List String)
    (horder : wf.topological_sort = pre ++ B :: post)
    (hok : ∀ bid ∈ pre, ∀ inp, ∃ outs, beh bid inp = .ok outs)
    (hfail : ∀ inp, beh B inp = .error msg) :
    ∃ entries : List LogEntry,
      wf.execute beh
        = Report.error msg (some (entries ++ [errorEntry B (typeValueOf wf B) msg])) ∧
      entries.map (fun e => e.block_id) = pre ∧
      (∀ e ∈ entries, e.status = "success") := by
  have hne : ¬(wf.topological_sort.isEmpty = true) := by
    rw [horder]
    simp
  obtain ⟨entries, hrun, hmap, hstat⟩ :=
    runOrder_prefix_fail beh wf msg pre B post [] [] hok hfail
  refine ⟨entries, ?_, hmap, hstat⟩
  rw [execute_eq, if_neg hne, horder, hrun]
  simp

/-- C2 witness: in the a ⟶ b workflow where a succeeds and b raises
"boom", the run fails with exactly one success entry then b's error. -/
theorem c2_witness :
    ∃ entries : List LogEntry,
      wfA.execute behFailB
        = Report.error "boom" (some (entries ++ [errorEntry "b" (typeValueOf wfA "b") "boom"])) ∧
      entries.map (fun e => e.block_id) = ["a"] ∧
      (∀ e ∈ entries, e.status = "success") := by
  refine c2_fail_fast wfA behFailB "boom" ["a"] "b" [] (by decide) ?_ ?_
  · intro bid hbid inp
    have hb : bid = "a" := by simpa using hbid
    subst hb
    exact ⟨[("data", ())], rfl⟩
  · intro inp
    rfl

/-! ## C10: missing upstream values bind None and execution proceeds -/

theorem assocSet_mem {β : Type} (l : List (String × β)) (k0 : String) (v0 : β)
    (k : String) (v : β) (h : (k, v) ∈ assocSet l k0 v0) :
    (k, v) ∈ l ∨ (k = k0 ∧ v = v0) := by
  unfold assocSet at h
  split at h
  · obtain ⟨p, hp, hf⟩ := List.mem_map.mp h
    by_cases hk : p.1 = k0
    · rw [if_pos hk] at hf
      have h1 : k0 = k := congrArg Prod.fst hf
      have h2 : v0 = v := congrArg Prod.snd hf
      exact Or.inr ⟨h1.symm, h2.symm⟩
    · rw [if_neg hk] at hf
      exact Or.inl (hf ▸ hp)
  · rcases List.mem_append.mp h with h1 | h2
    · exact Or.inl h1
    · have he := List.mem_singleton.mp h2
      exact Or.inr ⟨congrArg Prod.fst he, congrArg Prod.snd he⟩

theorem boundInputs_mem {α : Type} (conns : List Connection)
    (results : List (String × List (String × α))) (B : String) :
    ∀ k v, (k, v) ∈ boundInputs conns results B →
      ∃ c ∈ conns, c.to_block = B ∧ c.to_input = k ∧
        v = resultLookup results c.from_block c.from_output := by
  unfold boundInputs
  suffices h : ∀ (l : List Connection) (init : List (String × Option α)),
      (∀ k v, (k, v) ∈ init →
        ∃ c ∈ conns, c.to_block = B ∧ c.to_input = k ∧
          v = resultLookup results c.from_block c.from_output) →
      (∀ c ∈ l, c ∈ conns) →
      ∀ k v, (k, v) ∈ l.foldl (fun inp c =>
          if c.to_block = B then
            assocSet inp c.to_input (resultLookup results c.from_block c.from_output)
          else inp) init →
        ∃ c ∈ conns, c.to_block = B ∧ c.to_input = k ∧
          v = resultLookup results c.from_block c.from_output by
    exact h conns [] (by simp) (fun c hc => hc)
  intro l
  induction l with
  | nil =>
    intro init hinit _ k v hm
    exact hinit k v hm
  | cons c cs ih =>
    intro init hinit hsub k v hm
    simp only [List.foldl_cons] at hm
    refine ih _ ?_ (fun c2 hc2 => hsub c2 (List.mem_cons_of_mem _ hc2)) k v hm
    intro k2 v2 hm2
    by_cases hcb : c.to_block = B
    · rw [if_pos hcb] at hm2
      rcases assocSet_mem _ _ _ _ _ hm2 with h1 | ⟨hk, hv⟩
      · exact hinit k2 v2 h1
      · exact ⟨c, hsub c (List.mem_cons_self _ _), hcb, hk.symm, hv⟩
    · rw [if_neg hcb] at hm2
      exact hinit k2 v2 hm2

/-- C10 (confirmed): every input the engine binds for a block is the
routed upstream lookup; that lookup is None both when the producing
block stored no result and when its result lacks the named output port;
and running the block errors exactly when the block's own `execute()`
errors — a missing input is never itself reported as an error. -/
theorem c10_missing_inputs {π α : Type} (wf : Workflow π) (beh : Behavior α)
    (results : List (String × List (String × α))) (B : String) (log : List LogEntry) :
    (∀ k v, (k, v) ∈ boundInputs wf.connections results B →
      ∃ c ∈ wf.connections, c.to_block = B ∧ c.to_input = k ∧
        v = resultLookup results c.from_block c.from_output) ∧
    (∀ bid port, alookup results bid = none → resultLookup results bid port = none) ∧
    (∀ bid port outs, alookup results bid = some outs → alookup outs port = none →
      resultLookup results bid port = none) ∧
    (∀ msg, runOrder beh wf [B] results log
        = .error (msg, log ++ [errorEntry B (typeValueOf wf B) msg])
      ↔ beh B (boundInputs wf.connections results B) = .error msg) := by
  refine ⟨boundInputs_mem wf.connections results B, ?_, ?_, ?_⟩
  · intro bid port h
    unfold resultLookup
    rw [h]
  · intro bid port outs h1 h2
    unfold resultLookup
    rw [h1]
    exact h2
  · intro msg
    constructor
    · intro h
      cases hbeh : beh B (boundInputs wf.connections results B) with
      | ok outs =>
        simp only [runOrder, hbeh] at h
        exact absurd h (by simp)
      | error m =>
        simp only [runOrder, hbeh] at h
        have hm : m = msg := by
          injection h with h2
          exact congrArg Prod.fst h2
        rw [hm]
    · intro h
      simp only [runOrder, h]

/-- C10 witness: a concrete instantiation on the a ⟶ b workflow with an
empty results store (so b's input binds None). -/
theorem c10_witness :
    (∀ k v, (k, v) ∈ boundInputs wfA.connections [] "b" →
      ∃ c ∈ wfA.connections, c.to_block = "b" ∧ c.to_input = k ∧
        v = resultLookup ([] : List (String × List (String × Unit))) c.from_block c.from_output) ∧
    (∀ bid port, alookup ([] : List (String × List (String × Unit))) bid = none →
      resultLookup ([] : List (String × List (String × Unit))) bid port = none) ∧
    (∀ bid port outs, alookup ([] : List (String × List (String × Unit))) bid = some outs →
      alookup outs port = none →
      resultLookup ([] : List (String × List (String × Unit))) bid port = none) ∧
    (∀ msg, runOrder trivialBehavior wfA ["b"] [] []
        = .error (msg, [] ++ [errorEntry "b" (typeValueOf wfA "b") msg])
      ↔ trivialBehavior "b" (boundInputs wfA.connections [] "b") = .error msg) :=
  c10_missing_inputs wfA trivialBehavior [] "b" []

/-! ## C9: connection endpoints stay inside the workflow -/

theorem any_key_iff {β : Type} (l : List (String × β)) (k : String) :
    l.any (fun p => p.1 == k) = true ↔ k ∈ l.map Prod.fst := by
  rw [List.any_eq_true]
  simp only [beq_iff_eq, List.mem_map]

theorem keys_map_overwrite {β : Type} (l : List (String × β)) (k0 : String) (v0 : β) :
    (l.map (fun p => if p.1 = k0 then (k0, v0) else p)).map Prod.fst = l.map Prod.fst := by
  rw [List.map_map]
  apply List.map_congr_left
  intro p _
  by_cases hk : p.1 = k0
  · simp [hk]
  · simp [hk]

theorem mem_keys_assocSet {β : Type} (l : List (String × β)) (k0 : String) (v0 : β)
    (x : String) (hx : x ∈ l.map Prod.fst) :
    x ∈ (assocSet l k0 v0).map Prod.fst := by
  unfold assocSet
  split
  · rw [keys_map_overwrite]
    exact hx
  · rw [List.map_append]
    exact List.mem_append_left _ hx

theorem mem_keys_filter_ne {β : Type} (l : List (String × β)) (bid x : String) :
    x ∈ (l.filter (fun p => !(p.1 == bid))).map Prod.fst ↔
      (x ∈ l.map Prod.fst ∧ x ≠ bid) := by
  constructor
  · intro h
    obtain ⟨p, hp, hf⟩ := List.mem_map.mp h
    obtain ⟨hpl, hpb⟩ := List.mem_filter.mp hp
    have hne : p.1 ≠ bid := by simpa using hpb
    exact ⟨List.mem_map.mpr ⟨p, hpl, hf⟩, hf ▸ hne⟩
  · rintro ⟨h1, h2⟩
    obtain ⟨p, hp, hf⟩ := List.mem_map.mp h1
    refine List.mem_map.mpr ⟨p, List.mem_filter.mpr ⟨hp, ?_⟩, hf⟩
    simpa using hf ▸ h2

/-- C9 (confirmed): `connect` rejects unknown endpoints, and every
Workflow mutation (`add_block`, `remove_block`, `connect`,
`disconnect`, `set_block_parameter`) preserves the invariant that both
endpoints of every connection reference blocks present in the
workflow.  `remove_block` in particular drops every connection whose
source or target is the removed block. -/
theorem c9_endpoint_invariant {π : Type} (wf : Workflow π) (hv : wf.connectionsValid) :
    (∀ (bt : BlockType) (bid : String) (wf2 : Workflow π),
      wf.add_block bt bid = .ok wf2 → wf2.connectionsValid) ∧
    (∀ bid : String, (wf.remove_block bid).connectionsValid) ∧
    (∀ f fo t ti (wf2 : Workflow π),
      wf.connect f fo t ti = .ok wf2 → wf2.connectionsValid) ∧
    (∀ f fo t ti, ¬(f ∈ blockIds wf ∧ t ∈ blockIds wf) →
      wf.connect f fo t ti = .error "Block not found in workflow") ∧
    (∀ f t, (wf.disconnect f t).connectionsValid) ∧
    (∀ bid pname (v : π), (wf.set_block_parameter bid pname v).connectionsValid) := by
  refine ⟨?_, ?_, ?_, ?_, ?_, ?_⟩
  · intro bt bid wf2 h
    unfold Workflow.add_block create_block at h
    split at h
    · simp only [Except.map] at h
      injection h with h2
      subst h2
      intro c hc
      obtain ⟨h1, h2⟩ := hv c hc
      exact ⟨mem_keys_assocSet _ _ _ _ h1, mem_keys_assocSet _ _ _ _ h2⟩
    · simp only [Except.map] at h
      exact absurd h (by simp)
  · intro bid
    unfold Workflow.remove_block
    split
    · intro c hc
      obtain ⟨hcl, hcb⟩ := List.mem_filter.mp hc
      have hf : c.from_block ≠ bid ∧ c.to_block ≠ bid := by
        constructor <;> simp_all
      obtain ⟨h1, h2⟩ := hv c hcl
      exact ⟨(mem_keys_filter_ne _ _ _).mpr ⟨h1, hf.1⟩,
        (mem_keys_filter_ne _ _ _).mpr ⟨h2, hf.2⟩⟩
    · exact hv
  · intro f fo t ti wf2 h
    unfold Workflow.connect at h
    split at h
    · rename_i hcond
      injection h with h2
      subst h2
      intro c hc
      rcases List.mem_append.mp hc with h1 | h2
      · exact hv c h1
      · have he := List.mem_singleton.mp h2
        subst he
        exact ⟨(any_key_iff _ _).mp hcond.1, (any_key_iff _ _).mp hcond.2⟩
    · exact absurd h (by simp)
  · intro f fo t ti hno
    unfold Workflow.connect
    rw [if_neg]
    intro ⟨h1, h2⟩
    exact hno ⟨(any_key_iff _ _).mp h1, (any_key_iff _ _).mp h2⟩
  · intro f t c hc
    exact hv c (List.mem_filter.mp hc).1
  · intro bid pname v c hc
    obtain ⟨h1, h2⟩ := hv c hc
    have hkeys : blockIds (wf.set_block_parameter bid pname v) = blockIds wf := by
      unfold blockIds Workflow.set_block_parameter
      rw [List.map_map]
      apply List.map_congr_left
      intro p _
      by_cases hk : p.1 = bid
      · simp [hk]
      · simp [hk]
    rw [hkeys]
    exact ⟨h1, h2⟩

/-- C9 witness: instantiation on the concrete a ⟶ b workflow. -/
theorem c9_witness :
    (∀ (bt : BlockType) (bid : String) (wf2 : Workflow Unit),
      wfA.add_block bt bid = .ok wf2 → wf2.connectionsValid) ∧
    (∀ bid : String, (wfA.remove_block bid).connectionsValid) ∧
    (∀ f fo t ti (wf2 : Workflow Unit),
      wfA.connect f fo t ti = .ok wf2 → wf2.connectionsValid) ∧
    (∀ f fo t ti, ¬(f ∈ blockIds wfA ∧ t ∈ blockIds wfA) →
      wfA.connect f fo t ti = .error "Block not found in workflow") ∧
    (∀ f t, (wfA.disconnect f t).connectionsValid) ∧
    (∀ bid pname (v : Unit), (wfA.set_block_parameter bid pname v).connectionsValid) :=
  c9_endpoint_invariant wfA (by unfold Workflow.connectionsValid; decide)

/-! ## C3: serialization round-trip -/

theorem blockTypeValue_roundtrip (bt : BlockType) :
    blockTypeOfValue (blockTypeValue bt) = .ok bt := by
  cases bt <;> rfl

theorem assocSet_absent {β : Type} (l : List (String × β)) (k : String) (v : β)
    (hnot : k ∉ l.map Prod.fst) : assocSet l k v = l ++ [(k, v)] := by
  unfold assocSet
  rw [if_neg]
  intro hc
  exact hnot ((any_key_iff l k).mp hc)

theorem foldl_assocSet_eq_append {β : Type} :
    ∀ (ps : List (String × β)) (acc : List (String × β)),
      (ps.map Prod.fst).Nodup →
      (∀ k ∈ ps.map Prod.fst, k ∉ acc.map Prod.fst) →
      ps.foldl (fun a pv => assocSet a pv.1 pv.2) acc = acc ++ ps := by
  intro ps
  induction ps with
  | nil =>
    intro acc _ _
    simp
  | cons pv ps ih =>
    intro acc hnd hdis
    have hnot : pv.1 ∉ acc.map Prod.fst :=
      hdis pv.1 (by simp)
    have h1 : assocSet acc pv.1 pv.2 = acc ++ [pv] := by
      rw [assocSet_absent acc pv.1 pv.2 hnot]
    simp only [List.foldl_cons, h1]
    have hnd2 : (ps.map Prod.fst).Nodup := by
      simp only [List.map_cons] at hnd
      exact hnd.of_cons
    have hdis2 : ∀ k ∈ ps.map Prod.fst, k ∉ (acc ++ [pv]).map Prod.fst := by
      intro k hk
      rw [List.map_append]
      intro hmem
      rcases List.mem_append.mp hmem with h | h
      · exact hdis k (by simp [hk]) h
      · have : k = pv.1 := by simpa using h
        simp only [List.map_cons] at hnd
        rw [List.nodup_cons] at hnd
        exact hnd.1 (this ▸ hk)
    rw [ih (acc ++ [pv]) hnd2 hdis2]
    simp

deriving instance DecidableEq for Except

theorem exceptOkBind {ε α β : Type} (a : α) (f : α → Except ε β) :
    (Except.ok a >>= f : Except ε β) = f a := rfl

theorem exceptPureOk {ε α : Type} {a b : α} (h : (pure a : Except ε α) = .ok b) : a = b := by
  have h2 : Except.ok a = Except.ok b := h
  injection h2

theorem exceptMapPure {ε α β : Type} (f : α → β) (a : α) :
    Except.map f (pure a : Except ε α) = .ok (f a) := rfl

theorem exceptPureBind {ε α β : Type} (a : α) (f : α → Except ε β) :
    ((pure a : Except ε α) >>= f : Except ε β) = f a := rfl

theorem set_block_parameter_last {π : Type} (name : String) (bs : List (String × Block π))
    (cs : List Connection) (bid : String) (blk : Block π)
    (hnot : bid ∉ bs.map Prod.fst) (k : String) (v : π) :
    Workflow.set_block_parameter ⟨name, bs ++ [(bid, blk)], cs⟩ bid k v
      = ⟨name, bs ++ [(bid, { blk with parameters := assocSet blk.parameters k v })], cs⟩ := by
  unfold Workflow.set_block_parameter
  have hblocks : (bs ++ [(bid, blk)]).map (fun p =>
      if p.1 = bid then (p.1, { p.2 with parameters := assocSet p.2.parameters k v })
      else p)
      = bs ++ [(bid, { blk with parameters := assocSet blk.parameters k v })] := by
    rw [List.map_append]
    have h2 : ∀ p ∈ bs, (fun (p : String × Block π) =>
        if p.1 = bid then (p.1, { p.2 with parameters := assocSet p.2.parameters k v })
        else p) p = id p := by
      intro p hp
      have hne : p.1 ≠ bid := fun he => hnot (he ▸ List.mem_map.mpr ⟨p, hp, rfl⟩)
      simp [hne]
    rw [List.map_congr_left h2, List.map_id]
    simp
  rw [hblocks]

theorem fold_set_params {π : Type} (name : String) (bs : List (String × Block π))
    (cs : List Connection) (bid : String) (bt : BlockType)
    (hnot : bid ∉ bs.map Prod.fst) :
    ∀ (ps : List (String × π)) (acc : List (String × π)),
      ps.foldl (fun (w : Workflow π) (pv : String × π) =>
          w.set_block_parameter bid pv.1 pv.2)
        ⟨name, bs ++ [(bid, ⟨bid, bt, acc⟩)], cs⟩
      = ⟨name, bs ++ [(bid, ⟨bid, bt,
          ps.foldl (fun a (pv : String × π) => assocSet a pv.1 pv.2) acc⟩)], cs⟩ := by
  intro ps
  induction ps with
  | nil =>
    intro acc
    simp
  | cons pv ps ih =>
    intro acc
    simp only [List.foldl_cons]
    rw [set_block_parameter_last name bs cs bid _ hnot pv.1 pv.2]
    exact ih (assocSet acc pv.1 pv.2)

theorem add_block_fresh {π : Type} (name : String) (bs : List (String × Block π))
    (cs : List Connection) (bt : BlockType) (bid : String)
    (hreg : registered bt = true) (hnot : bid ∉ bs.map Prod.fst) :
    Workflow.add_block ⟨name, bs, cs⟩ bt bid
      = .ok ⟨name, bs ++ [(bid, ⟨bid, bt, []⟩)], cs⟩ := by
  unfold Workflow.add_block create_block
  rw [if_pos hreg]
  simp only [Except.map]
  rw [assocSet_absent bs bid _ hnot]

/-- The rebuilt dict entry of one stored block. -/
def rebuiltEntry {π : Type} (p : String × Block π) : String × Block π :=
  (p.1, ⟨p.1, p.2.block_type, p.2.parameters⟩)

theorem from_dict_blocks_fold {π : Type} :
    ∀ (bs : List (String × Block π)) (name : String) (acc : List (String × Block π))
      (cs : List Connection),
      (∀ p ∈ bs, registered p.2.block_type = true) →
      (∀ p ∈ bs, (p.2.parameters.map Prod.fst).Nodup) →
      (acc.map Prod.fst ++ bs.map Prod.fst).Nodup →
      List.foldlM
        (fun (wf : Workflow π) (bd : BlockDict π) => do
          let bt ← blockTypeOfValue bd.type
          let wf ← wf.add_block bt bd.id
          pure (bd.parameters.foldl
            (fun (w : Workflow π) (pv : String × π) =>
              w.set_block_parameter bd.id pv.1 pv.2) wf))
        (⟨name, acc, cs⟩ : Workflow π)
        (bs.map (fun (p : String × Block π) =>
          (⟨p.1, blockTypeValue p.2.block_type, p.2.parameters⟩ : BlockDict π)))
      = .ok ⟨name, acc ++ bs.map rebuiltEntry, cs⟩ := by
  intro bs
  induction bs with
  | nil =>
    intro name acc cs _ _ _
    simp only [List.map_nil, List.foldlM_nil, List.append_nil]
    rfl
  | cons p bs ih =>
    intro name acc cs hreg hpnd hnd
    simp only [List.map_cons, List.foldlM_cons]
    have hnotacc : p.1 ∉ acc.map Prod.fst := by
      simp only [List.map_cons] at hnd
      have := (List.nodup_append.mp hnd).2.2
      intro hmem
      exact this hmem (List.mem_cons_self _ _)
    rw [blockTypeValue_roundtrip]
    simp only [exceptOkBind]
    rw [add_block_fresh name acc cs p.2.block_type p.1 (hreg p (List.mem_cons_self _ _))
      hnotacc]
    simp only [exceptOkBind]
    rw [fold_set_params name acc cs p.1 p.2.block_type hnotacc p.2.parameters []]
    rw [foldl_assocSet_eq_append p.2.parameters [] (hpnd p (List.mem_cons_self _ _))
      (by simp)]
    simp only [List.nil_append, exceptPureBind]
    rw [ih name (acc ++ [(p.1, (⟨p.1, p.2.block_type, p.2.parameters⟩ : Block π))]) cs
      (fun q hq => hreg q (List.mem_cons_of_mem _ hq))
      (fun q hq => hpnd q (List.mem_cons_of_mem _ hq))
      (by
        simp only [List.map_append, List.map_cons, List.map_nil] at hnd ⊢
        simpa using hnd)]
    simp [rebuiltEntry]

theorem from_dict_conns_fold {π : Type} :
    ∀ (cs : List Connection) (name : String) (bs : List (String × Block π))
      (acc : List Connection),
      (∀ c ∈ cs, c.from_block ∈ bs.map Prod.fst ∧ c.to_block ∈ bs.map Prod.fst) →
      List.foldlM
        (fun (wf : Workflow π) (c : Connection) =>
          wf.connect c.from_block c.from_output c.to_block c.to_input)
        (⟨name, bs, acc⟩ : Workflow π) cs
      = .ok ⟨name, bs, acc ++ cs⟩ := by
  intro cs
  induction cs with
  | nil =>
    intro name bs acc _
    simp only [List.foldlM_nil, List.append_nil]
    rfl
  | cons c cs ih =>
    intro name bs acc hv
    simp only [List.foldlM_cons]
    have hc := hv c (List.mem_cons_self _ _)
    have hstep : Workflow.connect (⟨name, bs, acc⟩ : Workflow π)
        c.from_block c.from_output c.to_block c.to_input
        = .ok ⟨name, bs, acc ++ [c]⟩ := by
      unfold Workflow.connect
      rw [if_pos ⟨(any_key_iff bs c.from_block).mpr hc.1,
        (any_key_iff bs c.to_block).mpr hc.2⟩]
    rw [hstep]
    simp only [exceptOkBind]
    rw [ih name bs (acc ++ [c]) (fun c2 hc2 => hv c2 (List.mem_cons_of_mem _ hc2))]
    simp

/-- C3 (confirmed): for every well-formed Workflow built from
registered block types, `from_dict(to_dict(W))` succeeds and yields a
Workflow with the same name, the same id → (type, parameters) mapping
(even in the same order), and the same connection list (hence the same
set of 4-tuples). -/
theorem c3_roundtrip {π : Type} (wf : Workflow π)
    (hreg : ∀ p ∈ wf.blocks, registered p.2.block_type = true)
    (hpnd : ∀ p ∈ wf.blocks, (p.2.parameters.map Prod.fst).Nodup)
    (hnd : wf.idsNodup) (hv : wf.connectionsValid) :
    ∃ wf2 : Workflow π, Workflow.from_dict π wf.to_dict = .ok wf2 ∧
      wf2.name = wf.name ∧
      wf2.blocks.map (fun p => (p.1, p.2.block_type, p.2.parameters))
        = wf.blocks.map (fun p => (p.1, p.2.block_type, p.2.parameters)) ∧
      wf2.connections = wf.connections := by
  refine ⟨⟨wf.name, wf.blocks.map rebuiltEntry, wf.connections⟩, ?_, rfl, ?_, rfl⟩
  · unfold Workflow.from_dict
    simp only [Workflow.to_dict]
    rw [from_dict_blocks_fold wf.blocks wf.name [] [] hreg hpnd (by simpa using hnd)]
    simp only [exceptOkBind, List.nil_append]
    have hkeys : (wf.blocks.map rebuiltEntry).map Prod.fst = wf.blocks.map Prod.fst := by
      rw [List.map_map]
      apply List.map_congr_left
      intro p _
      rfl
    rw [from_dict_conns_fold wf.connections wf.name _ []
      (fun c hc => by
        rw [hkeys]
        exact hv c hc)]
    simp
  · rw [List.map_map]
    apply List.map_congr_left
    intro p _
    rfl

/-- C3 witness: the concrete two-block workflow round-trips. -/
theorem c3_witness :
    ∃ wf2 : Workflow Unit, Workflow.from_dict Unit wfA.to_dict = .ok wf2 ∧
      wf2.name = wfA.name ∧
      wf2.blocks.map (fun p => (p.1, p.2.block_type, p.2.parameters))
        = wfA.blocks.map (fun p => (p.1, p.2.block_type, p.2.parameters)) ∧
      wf2.connections = wfA.connections :=
  c3_roundtrip wfA (by decide) (by decide)
    (by unfold Workflow.idsNodup; decide)
    (by unfold Workflow.connectionsValid; decide)

/-! ## The tabular data model for the statistical layer

A pandas DataFrame is modelled column-major: named columns of scalar
cells, where `Cell.na` is the missing marker.  Python floats become
rationals. -/

inductive Cell where
  | na
  | num (q : Rat)
  | str (s : String)
deriving DecidableEq, Repr

/-- A table: insertion-ordered named columns (well-formed tables have
equal column lengths). -/
structure Table where
  cols : List (String × List Cell)
deriving DecidableEq

/-- `len(df)`: length of the first column (0 for no columns). -/
def Table.nrows (t : Table) : Nat :=
  match t.cols with
  | [] => 0
  | c :: _ => c.2.length

/-- `df[name]` column access; raises KeyError (modelled as the key
string) on a missing column. -/
def Table.column (t : Table) (c : String) : Except String (List Cell) :=
  match alookup t.cols c with
  | some l => .ok l
  | none => .error c

/-- The rows of the table (for `duplicated()`). -/
def Table.rows (t : Table) : List (List Cell) :=
  (t.cols.map Prod.snd).transpose

/-- `series.dropna()`. -/
def dropna (l : List Cell) : List Cell :=
  l.filter (fun c => !(c == Cell.na))

/-- The numeric values of a column (used where the source applies
numeric operations; non-numeric cells cannot occur there). -/
def numsOf (l : List Cell) : List Rat :=
  l.filterMap (fun c => match c with | .num q => some q | _ => none)

/-- Keep the entries of `l` whose mask position is true (boolean-mask
row filtering). -/
def applyMask (mask : List Bool) (l : List Cell) : List Cell :=
  (l.zip mask).filterMap (fun pc => if pc.2 then some pc.1 else none)

/-- Elementwise pandas `==` between a cell and a scalar: NaN compares
unequal to everything, including itself. -/
def cellEqCell : Cell → Cell → Bool
  | .num q, .num r => q == r
  | .str a, .str b => a == b
  | _, _ => false

/-- `series.duplicated().sum()`: rows equal to an earlier row. -/
def dupAux (seen : List (List Cell)) : List (List Cell) → Nat
  | [] => 0
  | r :: rest => (if r ∈ seen then 1 else 0) + dupAux (r :: seen) rest

/-- `df.duplicated().sum()`. -/
def Table.duplicatedCount (t : Table) : Nat :=
  dupAux [] t.rows

/-- `series.nunique()` (pandas drops NaN). -/
def nuniqueCells (l : List Cell) : Nat :=
  (dropna l).dedup.length

/-- First occurrences, skipping cells already seen. -/
def uniqAux (seen : List Cell) : List Cell → List Cell
  | [] => []
  | c :: rest =>
    if seen.any (fun x => x == c) then uniqAux seen rest
    else c :: uniqAux (c :: seen) rest

/-- `series.unique()`: first occurrences in order (pandas keeps NaN). -/
def uniqCells (l : List Cell) : List Cell :=
  uniqAux [] l

/-- Sample mean (empty sample: the source would produce NaN; modelled
as the rational 0/0 = 0 and avoided by every theorem). -/
def meanR (l : List Rat) : Rat :=
  l.sum / (l.length : Rat)

/-- Sample variance with ddof = 1 (pandas default). -/
def varR (l : List Rat) : Rat :=
  ((l.map (fun x => (x - meanR l) * (x - meanR l))).sum) / ((l.length : Rat) - 1)

/-- Insertion into a sorted list of rationals. -/
def insertR (x : Rat) : List Rat → List Rat
  | [] => [x]
  | y :: ys => if x ≤ y then x :: y :: ys else y :: insertR x ys

/-- Insertion sort for `median()`. -/
def sortR (l : List Rat) : List Rat :=
  l.foldr insertR []

/-- `series.median()` (empty: NaN in the source, 0 here, avoided by
the theorems). -/
def medianR (l : List Rat) : Rat :=
  let s := sortR l
  let n := s.length
  if n = 0 then 0
  else if n % 2 = 1 then s.getD (n / 2) 0
  else (s.getD (n / 2 - 1) 0 + s.getD (n / 2) 0) / 2

/-- String rendering of a cell (`str(...)`; float formatting is
approximated by the canonical rational rendering). -/
def cellToStr : Cell → String
  | .na => "nan"
  | .num q => toString q
  | .str s => s

/-- The scipy / statsmodels / numpy numeric procedures the statistical
layer calls, abstracted as oracles: their outputs feed the repository's
own branching and arithmetic, which is what the claims are about.
`Except` models that scipy calls can raise on degenerate input. -/
structure StatOracles where
  shapiro : List Rat → Except String Rat
  levene : List Rat → List Rat → Except String Rat
  ttest_ind : Bool → List Rat → List Rat → Except String (Rat × Rat)
  mannwhitney : List Rat → List Rat → Except String (Rat × Rat)
  f_oneway : List (List Rat) → Except String (Rat × Rat)
  sqrt : Rat → Rat
  solve_power : Rat → Nat → Rat → Rat → Rat

/-- `series.std()`: square root (oracle) of the ddof-1 variance. -/
def stdOr (or : StatOracles) (l : List Rat) : Rat :=
  or.sqrt (varR l)

/-! ## StatisticalTests.t_test (statistical_tests.py) -/

/-- Scalar parameter / port values of blocks (`Any` in the source). -/
inductive PVal where
  | str (s : String)
  | num (q : Rat)
  | bool (b : Bool)
  | table (t : Table)
  | none
deriving DecidableEq

/-- Elementwise pandas `==` between a cell and a Python scalar. -/
def cellEqParam : Cell → PVal → Bool
  | .num q, .num r => q == r
  | .str a, .str b => a == b
  | _, _ => false

/-- `str(value)` on a parameter value. -/
def pvalToStr : PVal → String
  | .str s => s
  | .num q => toString q
  | .bool b => if b then "True" else "False"
  | .table _ => "DataFrame"
  | .none => "None"

/-- `data[data[group_col] == g][value_col].dropna()` as numbers. -/
def sampleOf (t : Table) (group_col value_col : String) (g : PVal) :
    Except String (List Rat) := do
  let gcol ← t.column group_col
  let vcol ← t.column value_col
  pure (numsOf (dropna (applyMask (gcol.map (fun c => cellEqParam c g)) vcol)))

/-- `_interpret_cohens_d`. -/
def interpret_cohens_d (d : Rat) : String :=
  if |d| < 2/10 then "negligible"
  else if |d| < 5/10 then "small"
  else if |d| < 8/10 then "medium"
  else "large"

/-- Per-group descriptive block of the t-test result. -/
structure TGroupStats where
  name : String
  n : Nat
  mean : Rat
  std : Rat
deriving DecidableEq

/-- The t-test result dict.  The human-readable `interpretation`
string (a Russian formatted message) is abstracted to the branch it
reports: whether p < 0.05. -/
structure TTestResult where
  test : String
  statistic : Rat
  p_value : Rat
  significant : Bool
  effect_size : Rat
  effect_interpretation : String
  group1 : TGroupStats
  group2 : TGroupStats
  normality_group1_p : Option Rat
  normality_group2_p : Option Rat
  equal_variance_p : Rat
  equal_variance : Bool
  interpretation_significant : Bool
deriving DecidableEq

/-- Cohen's d exactly as computed in `t_test` (pooled std via the
sqrt oracle). -/
def tTestCohensD (or : StatOracles) (sample1 sample2 : List Rat) : Rat :=
  (meanR sample1 - meanR sample2) / or.sqrt
    ((((sample1.length : Rat) - 1) * stdOr or sample1 * stdOr or sample1 +
      ((sample2.length : Rat) - 1) * stdOr or sample2 * stdOr or sample2) /
     ((sample1.length : Rat) + (sample2.length : Rat) - 2))

/-- `float(p) if p else None`: Python zero/None truthiness on the
recorded normality p-values. -/
def truthyOpt : Option Rat → Option Rat
  | Option.none => Option.none
  | some p => if p = 0 then Option.none else some p

/-- `stats.shapiro(s) if len(s) < 5000 else (None, None)`: the Shapiro
p-value, skipped for large samples. -/
def shapiroUnder5000 (or : StatOracles) (l : List Rat) : Except String (Option Rat) :=
  if l.length < 5000 then (or.shapiro l).map some else .ok Option.none

/-- `StatisticalTests.t_test`: note that the Shapiro p-values are only
recorded; the procedure always runs `ttest_ind` (pooled when Levene
p > 0.05, Welch otherwise) and always computes Cohen's d. -/
def t_test (or : StatOracles) (t : Table) (group_col value_col : String)
    (group1 group2 : PVal) : Except String TTestResult := do
  let sample1 ← sampleOf t group_col value_col group1
  let sample2 ← sampleOf t group_col value_col group2
  let p_norm1 ← shapiroUnder5000 or sample1
  let p_norm2 ← shapiroUnder5000 or sample2
  let p_var ← or.levene sample1 sample2
  let equal_var := decide (p_var > 5/100)
  let st ← or.ttest_ind equal_var sample1 sample2
  let cohens_d := tTestCohensD or sample1 sample2
  pure
    { test := "t-test"
      statistic := st.1
      p_value := st.2
      significant := decide (st.2 < 5/100)
      effect_size := cohens_d
      effect_interpretation := interpret_cohens_d cohens_d
      group1 := ⟨pvalToStr group1, sample1.length, meanR sample1, stdOr or sample1⟩
      group2 := ⟨pvalToStr group2, sample2.length, meanR sample2, stdOr or sample2⟩
      normality_group1_p := truthyOpt p_norm1
      normality_group2_p := truthyOpt p_norm2
      equal_variance_p := p_var
      equal_variance := equal_var
      interpretation_significant := decide (st.2 < 5/100) }

/-! ## ABTestEngine (ab_testing.py) -/

/-- Per-group descriptive block of `_two_sample_test`. -/
structure ABGroupStats where
  n : Nat
  mean : Rat
  std : Rat
  median : Rat
deriving DecidableEq

/-- The `_two_sample_test` result dict. -/
structure TwoSampleResult where
  test_type : String
  n_groups : Nat
  control_group : String
  variant_groups : List String
  statistic : Rat
  p_value : Rat
  is_significant : Bool
  alpha : Rat
  effect_size : Option Rat
  control_stats : ABGroupStats
  variant_stats : ABGroupStats
  lift_absolute : Rat
  lift_relative_percent : Rat
  confidence_interval : Option (Rat × Rat)
  statistical_power : Option Rat
  normality : Bool
  equal_variance : Option Bool
deriving DecidableEq

/-- `data[data[group_col] == g][metric_col].dropna()` for a group cell
(pandas `==`: NaN matches nothing). -/
def sampleOfCell (t : Table) (group_col metric_col : String) (g : Cell) :
    Except String (List Rat) := do
  let gcol ← t.column group_col
  let mcol ← t.column metric_col
  pure (numsOf (dropna (applyMask (gcol.map (fun c => cellEqCell c g)) mcol)))

/-- The pooled-std Cohen's d of `_two_sample_test`. -/
def abCohensD (or : StatOracles) (control_data variant_data : List Rat) : Rat :=
  (meanR variant_data - meanR control_data) / or.sqrt
    ((((control_data.length : Rat) - 1) * stdOr or control_data * stdOr or control_data +
      ((variant_data.length : Rat) - 1) * stdOr or variant_data * stdOr or variant_data) /
     ((control_data.length : Rat) + (variant_data.length : Rat) - 2))

/-- The body of `_two_sample_test` after the two samples have been
extracted (the extraction itself is `sampleOfCell`). -/
def twoSampleCore (or : StatOracles) (control_data variant_data : List Rat)
    (control variant : Cell) (alpha : Rat) : Except String TwoSampleResult := do
  let p_norm_c ← if control_data.length < 5000 then or.shapiro control_data
    else pure (1/2 : Rat)
  let p_norm_v ← if variant_data.length < 5000 then or.shapiro variant_data
    else pure (1/2 : Rat)
  let is_normal := if p_norm_c = 0 ∨ p_norm_v = 0 then false
    else decide (p_norm_c > 5/100) && decide (p_norm_v > 5/100)
  let branch ← if is_normal then do
      let p_var ← or.levene control_data variant_data
      let equal_var := decide (p_var > 5/100)
      let st ← or.ttest_ind equal_var control_data variant_data
      pure (("t-test", st.1, st.2, some (abCohensD or control_data variant_data),
        some equal_var) : String × Rat × Rat × Option Rat × Option Bool)
    else do
      let us ← or.mannwhitney control_data variant_data
      pure (("Mann-Whitney U", us.1, us.2, Option.none, Option.none) :
        String × Rat × Rat × Option Rat × Option Bool)
  let control_mean := meanR control_data
  let variant_mean := meanR variant_data
  let lift_absolute := variant_mean - control_mean
  let lift_relative := if control_mean ≠ 0 then (lift_absolute / control_mean) * 100 else 0
  let ci : Option (Rat × Rat) := if is_normal then
      some (lift_absolute - (196/100) * or.sqrt
          (varR control_data / (control_data.length : Rat)
            + varR variant_data / (variant_data.length : Rat)),
        lift_absolute + (196/100) * or.sqrt
          (varR control_data / (control_data.length : Rat)
            + varR variant_data / (variant_data.length : Rat)))
    else Option.none
  let es := branch.2.2.2.1
  let actual_power : Option Rat := if is_normal then
      match es with
      | some e => if e = 0 then Option.none else
          some (or.solve_power |e| control_data.length
            ((variant_data.length : Rat) / (control_data.length : Rat)) alpha)
      | Option.none => Option.none
    else Option.none
  pure
    { test_type := branch.1
      n_groups := 2
      control_group := cellToStr control
      variant_groups := [cellToStr variant]
      statistic := branch.2.1
      p_value := branch.2.2.1
      is_significant := decide (branch.2.2.1 < alpha)
      alpha := alpha
      effect_size := match es with
        | some e => if e = 0 then Option.none else some e
        | Option.none => Option.none
      control_stats := ⟨control_data.length, control_mean, stdOr or control_data,
        medianR control_data⟩
      variant_stats := ⟨variant_data.length, variant_mean, stdOr or variant_data,
        medianR variant_data⟩
      lift_absolute := lift_absolute
      lift_relative_percent := lift_relative
      confidence_interval := match ci with
        | some (lo, hi) => if lo = 0 then Option.none else some (lo, hi)
        | Option.none => Option.none
      statistical_power := match actual_power with
        | some p => if p = 0 then Option.none else some p
        | Option.none => Option.none
      normality := is_normal
      equal_variance := branch.2.2.2.2 }

/-- `ABTestEngine._two_sample_test`. -/
def two_sample_test (or : StatOracles) (t : Table) (group_col metric_col : String)
    (control variant : Cell) (alpha : Rat) : Except String TwoSampleResult := do
  let control_data ← sampleOfCell t group_col metric_col control
  let variant_data ← sampleOfCell t group_col metric_col variant
  twoSampleCore or control_data variant_data control variant alpha

/-- One variant's entry of `_assess_practical_significance`. -/
structure VariantAssessment where
  variant : String
  relative_change : Rat
  is_practically_significant : Bool
deriving DecidableEq

/-- `_assess_practical_significance`'s result. -/
structure PracticalSig where
  threshold : Rat
  variants : List VariantAssessment
deriving DecidableEq

/-- `_assess_practical_significance`. -/
def assess_practical_significance (t : Table) (group_col metric_col : String)
    (control : Cell) : Except String PracticalSig := do
  let control_data ← sampleOfCell t group_col metric_col control
  let control_mean := meanR control_data
  let gcol ← t.column group_col
  let vlist := (uniqCells gcol).filter (fun v => !(cellEqCell v control))
  let assessments ← vlist.mapM (fun v => do
    let vd ← sampleOfCell t group_col metric_col v
    let vm := meanR vd
    let rc := if control_mean ≠ 0 then |vm - control_mean| / control_mean else 0
    pure (⟨cellToStr v, rc, decide (rc ≥ 5/100)⟩ : VariantAssessment))
  pure ⟨5/100, assessments⟩

/-- The tags of `_generate_recommendations` (the formatted Russian
message strings are abstracted to their branch and payload). -/
inductive RecTag where
  | significant_improvement (pct : Rat)
  | significant_decline (pct : Rat)
  | low_power (p : Rat)
  | not_significant
  | small_sample (n : Nat)
deriving DecidableEq

/-- `_generate_recommendations` on a two-sample result (which always
carries `lift` and `groups`). -/
def generate_recommendations (r : TwoSampleResult) : List RecTag :=
  if r.is_significant then
    (if r.lift_relative_percent > 0 then
      [RecTag.significant_improvement r.lift_relative_percent]
    else [RecTag.significant_decline |r.lift_relative_percent|]) ++
    (match r.statistical_power with
     | some p => if p < 8/10 then [RecTag.low_power p] else []
     | Option.none => [])
  else
    [RecTag.not_significant] ++
    (let mn := min r.control_stats.n r.variant_stats.n
     if mn < 100 then [RecTag.small_sample mn] else [])

/-- The outcome of `run_ab_test`.  The proportion and multi-group
branches fall outside every claim and are represented opaquely by their
dispatch tag (their internals call separate procedures of the same
file). -/
inductive ABTestOutcome where
  | errorDict (error : String)
  | twoSample (r : TwoSampleResult) (practical : PracticalSig)
      (recommendations : List RecTag)
  | unmodelledBranch (tag : String)
deriving DecidableEq

/-- `ABTestEngine.run_ab_test`: note the variant passed to the
two-group tests is always `groups[1]` — the second distinct value of
the group column — independent of which group was designated control. -/
def run_ab_test (or : StatOracles) (t : Table) (group_col metric_col : String)
    (control_group : Option Cell) (alpha : Rat) (metric_type : String) :
    Except String ABTestOutcome := do
  let gcol ← t.column group_col
  let groups := uniqCells gcol
  match groups with
  | g0 :: g1 :: grest =>
    let control := control_group.getD g0
    if grest.isEmpty then
      if metric_type = "continuous" then do
        let r ← two_sample_test or t group_col metric_col control g1 alpha
        let practical ← assess_practical_significance t group_col metric_col control
        pure (.twoSample r practical (generate_recommendations r))
      else pure (.unmodelledBranch "proportion")
    else
      if metric_type = "continuous" then pure (.unmodelledBranch "multigroup-anova")
      else pure (.unmodelledBranch "multigroup-chi-square")
  | _ => pure (.errorDict "Need at least 2 groups for A/B test")

/-! ## C4: where the parametric / non-parametric selection happens -/

theorem exceptErrBind {ε α β : Type} (e : ε) (f : α → Except ε β) :
    (Except.error e >>= f : Except ε β) = .error e := rfl

theorem exceptBindOk {ε α β : Type} {x : Except ε α} {f : α → Except ε β} {r : β}
    (h : (x >>= f) = .ok r) : ∃ a, x = .ok a ∧ f a = .ok r := by
  cases x with
  | error e =>
    rw [exceptErrBind] at h
    exact absurd h (by simp)
  | ok a => exact ⟨a, rfl, h⟩

/-- A concrete table with two groups of three numeric values. -/
def c4Table : Table :=
  ⟨[("g", [.str "A", .str "A", .str "A", .str "B", .str "B", .str "B"]),
    ("v", [.num 1, .num 2, .num 3, .num 4, .num 5, .num 6])]⟩

/-- Concrete oracles whose Shapiro p-value (1/100) fails the normality
check. -/
def c4Oracles : StatOracles :=
  { shapiro := fun _ => .ok (1/100)
    levene := fun _ _ => .ok (1/10)
    ttest_ind := fun _ _ _ => .ok (2, 3/100)
    mannwhitney := fun _ _ => .ok (0, 1/2)
    f_oneway := fun _ => .ok (1, 1/10)
    sqrt := fun q => q
    solve_power := fun _ _ _ _ => 1/2 }

/-- C4 counterexample: with a sample whose Shapiro p-value is
1/100 ≤ 0.05, `StatisticalTests.t_test` still reports the t-test and
still reports Cohen's d — it never selects Mann-Whitney U.  (The
selection described by the claim lives in
`ABTestEngine._two_sample_test`, see `c4_selection`.) -/
theorem c4_counterexample :
    (Except.map (fun r => (r.test, r.normality_group1_p, r.effect_size))
        (t_test c4Oracles c4Table "g" "v" (PVal.str "A") (PVal.str "B"))
      = .ok ("t-test", some (1/100), tTestCohensD c4Oracles [1, 2, 3] [4, 5, 6])) ∧
    ¬((1/100 : Rat) > 5/100) := by
  have hs1 : sampleOf c4Table "g" "v" (PVal.str "A") = .ok [1, 2, 3] := rfl
  have hs2 : sampleOf c4Table "g" "v" (PVal.str "B") = .ok [4, 5, 6] := rfl
  constructor
  · unfold t_test
    rw [hs1]
    simp only [exceptOkBind]
    rw [hs2]
    simp only [exceptOkBind]
    rw [show shapiroUnder5000 c4Oracles [1, 2, 3] = .ok (some (1/100)) from rfl]
    simp only [exceptOkBind]
    rw [show shapiroUnder5000 c4Oracles [4, 5, 6] = .ok (some (1/100)) from rfl]
    simp only [exceptOkBind]
    rw [show c4Oracles.levene [1, 2, 3] [4, 5, 6] = .ok (1/10) from rfl]
    simp only [exceptOkBind]
    rw [show c4Oracles.ttest_ind (decide ((1/10 : Rat) > 5/100)) [1, 2, 3] [4, 5, 6]
      = .ok (2, 3/100) from rfl]
    simp only [exceptOkBind, exceptMapPure]
    have ht : truthyOpt (some ((1 : Rat)/100)) = some (1/100) := by
      show (if (1 : Rat)/100 = 0 then Option.none else some ((1 : Rat)/100)) = some (1/100)
      rw [if_neg]
      norm_num
    simp only [ht]
  · norm_num

theorem twoSampleCore_ttest (or : StatOracles) (cd vd : List Rat) (control variant : Cell)
    (alpha pc pv pvarv : Rat) (st : Rat × Rat)
    (hclen : cd.length < 5000) (hvlen : vd.length < 5000)
    (hpc : or.shapiro cd = .ok pc) (hpv : or.shapiro vd = .ok pv)
    (h1 : pc > 5/100) (h2 : pv > 5/100)
    (hlev : or.levene cd vd = .ok pvarv)
    (htt : or.ttest_ind (decide (pvarv > 5/100)) cd vd = .ok st) :
    ∃ r, twoSampleCore or cd vd control variant alpha = .ok r ∧
      r.test_type = "t-test" ∧ r.normality = true ∧
      r.equal_variance = some (decide (pvarv > 5/100)) ∧
      r.statistic = st.1 ∧ r.p_value = st.2 ∧
      r.control_group = cellToStr control ∧ r.variant_groups = [cellToStr variant] ∧
      r.lift_absolute = meanR vd - meanR cd ∧
      (abCohensD or cd vd ≠ 0 → r.effect_size = some (abCohensD or cd vd)) := by
  have hn : (if pc = 0 ∨ pv = 0 then false
      else decide (pc > 5/100) && decide (pv > 5/100)) = true := by
    rw [if_neg]
    · simp [h1, h2]
    · push_neg
      constructor
      · intro h0
        rw [h0] at h1
        norm_num at h1
      · intro h0
        rw [h0] at h2
        norm_num at h2
  unfold twoSampleCore
  rw [if_pos hclen, hpc]
  simp only [exceptOkBind]
  rw [if_pos hvlen, hpv]
  simp only [exceptOkBind]
  rw [hn]
  simp only [if_true, ite_true]
  rw [hlev, exceptOkBind, htt, exceptOkBind]
  simp only [exceptPureBind]
  refine ⟨_, rfl, rfl, rfl, rfl, rfl, rfl, rfl, rfl, rfl, ?_⟩
  intro hd
  simp only [if_neg hd]

theorem twoSampleCore_mannwhitney (or : StatOracles) (cd vd : List Rat)
    (control variant : Cell) (alpha pc pv : Rat) (us : Rat × Rat)
    (hclen : cd.length < 5000) (hvlen : vd.length < 5000)
    (hpc : or.shapiro cd = .ok pc) (hpv : or.shapiro vd = .ok pv)
    (hle : pc ≤ 5/100 ∨ pv ≤ 5/100)
    (hmw : or.mannwhitney cd vd = .ok us) :
    ∃ r, twoSampleCore or cd vd control variant alpha = .ok r ∧
      r.test_type = "Mann-Whitney U" ∧ r.normality = false ∧
      r.effect_size = Option.none ∧ r.equal_variance = Option.none ∧
      r.statistic = us.1 ∧ r.p_value = us.2 ∧
      r.control_group = cellToStr control ∧ r.variant_groups = [cellToStr variant] ∧
      r.lift_absolute = meanR vd - meanR cd := by
  have hn : (if pc = 0 ∨ pv = 0 then false
      else decide (pc > 5/100) && decide (pv > 5/100)) = false := by
    by_cases h0 : pc = 0 ∨ pv = 0
    · rw [if_pos h0]
    · rw [if_neg h0]
      rcases hle with h | h
      · have : ¬(pc > 5/100) := not_lt.mpr h
        simp [this]
      · have : ¬(pv > 5/100) := not_lt.mpr h
        simp [this]
  unfold twoSampleCore
  rw [if_pos hclen, hpc]
  simp only [exceptOkBind]
  rw [if_pos hvlen, hpv]
  simp only [exceptOkBind]
  rw [hn]
  simp only [Bool.false_eq_true, ite_false]
  rw [hmw, exceptOkBind]
  simp only [exceptPureBind]
  exact ⟨_, rfl, rfl, rfl, rfl, rfl, rfl, rfl, rfl, rfl, rfl⟩

/-- C4 (amended): the assumption-based selection happens in
`ABTestEngine._two_sample_test`: when both samples pass the Shapiro
check (p > 0.05) it runs the t-test (pooled when Levene p > 0.05, Welch
otherwise) and reports the pooled-std Cohen's d (when nonzero — a zero
effect is reported as null by Python truthiness); when at least one
sample fails (p ≤ 0.05) it runs two-sided Mann-Whitney U and omits the
parametric effect size.  `StatisticalTests.t_test` itself performs no
such selection: any successful run reports the t-test. -/
theorem c4_selection (or : StatOracles) (cd vd : List Rat) (control variant : Cell)
    (alpha pc pv : Rat)
    (hclen : cd.length < 5000) (hvlen : vd.length < 5000)
    (hpc : or.shapiro cd = .ok pc) (hpv : or.shapiro vd = .ok pv) :
    ((pc > 5/100 ∧ pv > 5/100) →
      ∀ pvarv st, or.levene cd vd = .ok pvarv →
        or.ttest_ind (decide (pvarv > 5/100)) cd vd = .ok st →
        ∃ r, twoSampleCore or cd vd control variant alpha = .ok r ∧
          r.test_type = "t-test" ∧ r.normality = true ∧
          r.equal_variance = some (decide (pvarv > 5/100)) ∧
          r.statistic = st.1 ∧ r.p_value = st.2 ∧
          (abCohensD or cd vd ≠ 0 → r.effect_size = some (abCohensD or cd vd))) ∧
    ((pc ≤ 5/100 ∨ pv ≤ 5/100) →
      ∀ us, or.mannwhitney cd vd = .ok us →
        ∃ r, twoSampleCore or cd vd control variant alpha = .ok r ∧
          r.test_type = "Mann-Whitney U" ∧ r.normality = false ∧
          r.effect_size = Option.none ∧ r.equal_variance = Option.none ∧
          r.statistic = us.1 ∧ r.p_value = us.2) ∧
    (∀ (t : Table) (gc vc : String) (g1 g2 : PVal) (r : TTestResult),
      t_test or t gc vc g1 g2 = .ok r → r.test = "t-test") := by
  refine ⟨?_, ?_, ?_⟩
  · rintro ⟨h1, h2⟩ pvarv st hlev htt
    obtain ⟨r, hr, f1, f2, f3, f4, f5, _, _, _, f9⟩ :=
      twoSampleCore_ttest or cd vd control variant alpha pc pv pvarv st
        hclen hvlen hpc hpv h1 h2 hlev htt
    exact ⟨r, hr, f1, f2, f3, f4, f5, f9⟩
  · intro hle us hmw
    obtain ⟨r, hr, f1, f2, f3, f4, f5, f6, _, _, _⟩ :=
      twoSampleCore_mannwhitney or cd vd control variant alpha pc pv us
        hclen hvlen hpc hpv hle hmw
    exact ⟨r, hr, f1, f2, f3, f4, f5, f6⟩
  · intro t gc vc g1 g2 r h
    unfold t_test at h
    obtain ⟨s1, hs1, h⟩ := exceptBindOk h
    obtain ⟨s2, hs2, h⟩ := exceptBindOk h
    obtain ⟨pn1, hpn1, h⟩ := exceptBindOk h
    obtain ⟨pn2, hpn2, h⟩ := exceptBindOk h
    obtain ⟨pvar2, hpvar2, h⟩ := exceptBindOk h
    obtain ⟨st2, hst2, h⟩ := exceptBindOk h
    have hr := exceptPureOk h
    rw [← hr]

/-- C4 witness: a concrete instantiation with Shapiro p-value 1/100. -/
theorem c4_witness :
    (((1/100 : Rat) > 5/100 ∧ (1/100 : Rat) > 5/100) →
      ∀ pvarv st, c4Oracles.levene [1, 2, 3] [4, 5, 6] = .ok pvarv →
        c4Oracles.ttest_ind (decide (pvarv > 5/100)) [1, 2, 3] [4, 5, 6] = .ok st →
        ∃ r, twoSampleCore c4Oracles [1, 2, 3] [4, 5, 6] (Cell.str "A") (Cell.str "B")
            (5/100) = .ok r ∧
          r.test_type = "t-test" ∧ r.normality = true ∧
          r.equal_variance = some (decide (pvarv > 5/100)) ∧
          r.statistic = st.1 ∧ r.p_value = st.2 ∧
          (abCohensD c4Oracles [1, 2, 3] [4, 5, 6] ≠ 0 →
            r.effect_size = some (abCohensD c4Oracles [1, 2, 3] [4, 5, 6]))) ∧
    (((1/100 : Rat) ≤ 5/100 ∨ (1/100 : Rat) ≤ 5/100) →
      ∀ us, c4Oracles.mannwhitney [1, 2, 3] [4, 5, 6] = .ok us →
        ∃ r, twoSampleCore c4Oracles [1, 2, 3] [4, 5, 6] (Cell.str "A") (Cell.str "B")
            (5/100) = .ok r ∧
          r.test_type = "Mann-Whitney U" ∧ r.normality = false ∧
          r.effect_size = Option.none ∧ r.equal_variance = Option.none ∧
          r.statistic = us.1 ∧ r.p_value = us.2) ∧
    (∀ (t : Table) (gc vc : String) (g1 g2 : PVal) (r : TTestResult),
      t_test c4Oracles t gc vc g1 g2 = .ok r → r.test = "t-test") :=
  c4_selection c4Oracles [1, 2, 3] [4, 5, 6] (Cell.str "A") (Cell.str "B") (5/100)
    (1/100) (1/100) (by norm_num) (by norm_num) rfl rfl

/-! ## StatisticalTests.anova (statistical_tests.py) -/

/-- Total order on cells, modelling the sorted group keys of
`DataFrame.groupby` (keys have one type in practice; a fixed
cross-type order keeps the function total). -/
def cellLe : Cell → Cell → Bool
  | .na, _ => true
  | _, .na => false
  | .num a, .num b => decide (a ≤ b)
  | .num _, .str _ => true
  | .str _, .num _ => false
  | .str a, .str b => decide (a ≤ b)

/-- Insertion into a `cellLe`-sorted list. -/
def insertCell (x : Cell) : List Cell → List Cell
  | [] => [x]
  | y :: ys => if cellLe x y then x :: y :: ys else y :: insertCell x ys

/-- Insertion sort of cells. -/
def sortCells (l : List Cell) : List Cell :=
  l.foldr insertCell []

/-- The `(str(name), values)` pairs built by the loop
`for name, group in self.data.groupby(group_col)` with
`values = group[value_col].dropna()`, keeping only groups with
`len(values) > 0`: groupby iterates the distinct non-NaN keys in
sorted order. -/
def anovaGroups (gcol vcol : List Cell) : List (String × List Rat) :=
  (sortCells (uniqCells (dropna gcol))).filterMap (fun k =>
    let vals := numsOf (dropna (applyMask (gcol.map (fun c => cellEqCell c k)) vcol))
    if vals.length > 0 then some (cellToStr k, vals) else Option.none)

/-- One row of the Tukey HSD post-hoc table. -/
structure TukeyComparison where
  group1 : String
  group2 : String
  mean_diff : Rat
  p_value : Rat
  significant : Bool
deriving DecidableEq

/-- A result dictionary of `StatisticalTests.anova`: either the
error dictionary built for fewer than two groups, or the full result
(the Russian `interpretation` string is abstracted into the
`significant` flag it reports). -/
inductive AnovaOut where
  | errorDict (msg : String)
  | res (statistic p_value : Rat) (significant : Bool)
        (group_statistics : List TGroupStats)
        (posthoc : Option (List TukeyComparison))
deriving DecidableEq

/-- `StatisticalTests.anova`.  `tk` abstracts `self._tukey_hsd`
(statsmodels `pairwise_tukeyhsd`), invoked only when p < 0.05. -/
def anova (or : StatOracles) (tk : String → String → List TukeyComparison)
    (t : Table) (group_col value_col : String) : Except String AnovaOut := do
  let gcol ← t.column group_col
  let vcol ← t.column value_col
  let pairs := anovaGroups gcol vcol
  if pairs.length < 2 then
    pure (AnovaOut.errorDict "Need at least 2 groups for ANOVA")
  else do
    let fp ← or.f_oneway (pairs.map Prod.snd)
    let posthoc := if fp.2 < 5/100 then some (tk group_col value_col) else Option.none
    pure (AnovaOut.res fp.1 fp.2 (decide (fp.2 < 5/100))
      (pairs.map (fun p => ⟨p.1, p.2.length, meanR p.2, stdOr or p.2⟩))
      posthoc)

/-- Single-group table: a degenerate ANOVA input. -/
def c5Table : Table :=
  ⟨[("g", [Cell.str "A", Cell.str "A"]), ("v", [Cell.num 1, Cell.num 2])]⟩

/-- Trivial Tukey oracle (never reached in the C5 statements). -/
def c5Tukey : String → String → List TukeyComparison := fun _ _ => []

/-- C5 counterexample: on a degenerate input (a single group), `anova`
does not fail with an exception naming the offending column or group —
no `StatisticalComputationError` exists anywhere in the source — it
returns a normal result dictionary whose only key is `error`, with a
fixed message naming neither the value column nor the group column. -/
theorem c5_counterexample :
    anova c4Oracles c5Tukey c5Table "g" "v"
      = .ok (AnovaOut.errorDict "Need at least 2 groups for ANOVA") ∧
    "Need at least 2 groups for ANOVA" ≠ "v" ∧
    "Need at least 2 groups for ANOVA" ≠ "g" := by
  refine ⟨?_, by decide, by decide⟩
  rfl

/-- C5 (amended): on fewer than two nonempty groups — in particular on
every degenerate single-group input — `StatisticalTests.anova` raises
no exception and names no column: it returns the plain dictionary
with the fixed message `Need at least 2 groups for ANOVA` under the
`error` key.  (No `StatisticalComputationError` class exists in the
source; finiteness of statistics in non-degenerate results is
delegated to scipy and not checked by this code.) -/
theorem c5_degenerate (or : StatOracles) (tk : String → String → List TukeyComparison)
    (t : Table) (gc vc : String) (gcol vcol : List Cell)
    (hg : t.column gc = .ok gcol) (hv : t.column vc = .ok vcol)
    (hlen : (anovaGroups gcol vcol).length < 2) :
    anova or tk t gc vc = .ok (AnovaOut.errorDict "Need at least 2 groups for ANOVA") := by
  unfold anova
  rw [hg]
  simp only [exceptOkBind]
  rw [hv]
  simp only [exceptOkBind]
  rw [if_pos hlen]
  rfl

/-- C5 witness: the degenerate-input theorem applied to the concrete
single-group table. -/
theorem c5_witness :
    c5Table.column "g" = .ok [Cell.str "A", Cell.str "A"] ∧
    c5Table.column "v" = .ok [Cell.num 1, Cell.num 2] ∧
    (anovaGroups [Cell.str "A", Cell.str "A"] [Cell.num 1, Cell.num 2]).length < 2 ∧
    anova c4Oracles c5Tukey c5Table "g" "v"
      = .ok (AnovaOut.errorDict "Need at least 2 groups for ANOVA") :=
  ⟨rfl, rfl, by decide,
    c5_degenerate c4Oracles c5Tukey c5Table "g" "v" _ _ rfl rfl (by decide)⟩

/-! ## C6: run_ab_test always takes groups[1] as the variant -/

/-- Two groups A and B with metric means 10 and 11. -/
def c6Table : Table :=
  ⟨[("g", [Cell.str "A", Cell.str "A", Cell.str "B", Cell.str "B"]),
    ("m", [Cell.num 10, Cell.num 10, Cell.num 11, Cell.num 11])]⟩

/-- C6: `run_ab_test` passes `list(groups)[1]` as the variant group no
matter which group the caller designates as control.  With the default
control (groups[0] = A) the absolute lift is the expected
mean(B) − mean(A) = 1; designating B as the control does not flip the
sign to −1 — the test compares B against itself and reports an
absolute lift of 0. -/
theorem c6_control_swap :
    (∃ r p rec, run_ab_test c4Oracles c6Table "g" "m" Option.none (5/100) "continuous"
        = .ok (.twoSample r p rec) ∧
      r.control_group = "A" ∧ r.variant_groups = ["B"] ∧ r.lift_absolute = 1) ∧
    (∃ r p rec,
      run_ab_test c4Oracles c6Table "g" "m" (some (Cell.str "B")) (5/100) "continuous"
        = .ok (.twoSample r p rec) ∧
      r.control_group = "B" ∧ r.variant_groups = ["B"] ∧ r.lift_absolute = 0) := by
  constructor
  · have hred : run_ab_test c4Oracles c6Table "g" "m" Option.none (5/100) "continuous"
        = (do
            let r ← twoSampleCore c4Oracles [10, 10] [11, 11]
              (Cell.str "A") (Cell.str "B") (5/100)
            let practical ← assess_practical_significance c6Table "g" "m" (Cell.str "A")
            pure (ABTestOutcome.twoSample r practical (generate_recommendations r))) := rfl
    obtain ⟨r, hr, ht1, hn1, hes, hev, hst, hpv, hcg, hvg, hla⟩ :=
      twoSampleCore_mannwhitney c4Oracles [10, 10] [11, 11]
        (Cell.str "A") (Cell.str "B") (5/100) (1/100) (1/100) (0, 1/2)
        (by norm_num) (by norm_num) rfl rfl (Or.inl (by norm_num)) rfl
    obtain ⟨P, hP⟩ : ∃ P,
        assess_practical_significance c6Table "g" "m" (Cell.str "A") = .ok P := ⟨_, rfl⟩
    rw [hred, hr]
    simp only [exceptOkBind]
    rw [hP]
    simp only [exceptOkBind]
    refine ⟨r, P, generate_recommendations r, rfl, ?_, ?_, ?_⟩
    · rw [hcg]
      rfl
    · rw [hvg]
      rfl
    · rw [hla]
      show meanR [11, 11] - meanR [10, 10] = 1
      simp only [meanR, List.sum_cons, List.sum_nil, List.length_cons, List.length_nil]
      norm_num
  · have hred : run_ab_test c4Oracles c6Table "g" "m" (some (Cell.str "B")) (5/100)
          "continuous"
        = (do
            let r ← twoSampleCore c4Oracles [11, 11] [11, 11]
              (Cell.str "B") (Cell.str "B") (5/100)
            let practical ← assess_practical_significance c6Table "g" "m" (Cell.str "B")
            pure (ABTestOutcome.twoSample r practical (generate_recommendations r))) := rfl
    obtain ⟨r, hr, ht1, hn1, hes, hev, hst, hpv, hcg, hvg, hla⟩ :=
      twoSampleCore_mannwhitney c4Oracles [11, 11] [11, 11]
        (Cell.str "B") (Cell.str "B") (5/100) (1/100) (1/100) (0, 1/2)
        (by norm_num) (by norm_num) rfl rfl (Or.inl (by norm_num)) rfl
    obtain ⟨P, hP⟩ : ∃ P,
        assess_practical_significance c6Table "g" "m" (Cell.str "B") = .ok P := ⟨_, rfl⟩
    rw [hred, hr]
    simp only [exceptOkBind]
    rw [hP]
    simp only [exceptOkBind]
    refine ⟨r, P, generate_recommendations r, rfl, ?_, ?_, ?_⟩
    · rw [hcg]
      rfl
    · rw [hvg]
      rfl
    · rw [hla]
      show meanR [11, 11] - meanR [11, 11] = 0
      rw [sub_self]

/-! ## DataProfiler._assess_data_quality (data_profiler.py) -/

/-- The columns with more than 30% missing values
(`missing_pct = isna().sum() / len(data)`, `missing_pct > 0.3`). -/
def highMissingCols (t : Table) : List String :=
  (t.cols.filter (fun p =>
    decide ((((p.2.filter (fun c => c == Cell.na)).length : Rat) / (t.nrows : Rat))
      > 3/10))).map Prod.fst

/-- The constant columns (`nunique() <= 1`; pandas nunique drops NaN). -/
def constantCols (t : Table) : List String :=
  (t.cols.filter (fun p => decide (nuniqueCells p.2 ≤ 1))).map Prod.fst

/-- The `quality_score` of `_assess_data_quality`: 100, minus the
three deductions applied in source order, floored at 0 by `max(0, .)`. -/
def assess_data_quality_score (t : Table) : Rat :=
  max 0 (((100 - ((highMissingCols t).length : Rat) * 10)
    - ((t.duplicatedCount : Rat) / (t.nrows : Rat)) * 20)
    - ((constantCols t).length : Rat) * 5)

/-- C7: on every table with at least one row (an empty frame would
divide by zero in the source), the quality score equals 100 minus 10
per high-missing column, minus 20 times the duplicate-row fraction,
minus 5 per constant column, floored at 0 — and therefore always lies
in the closed interval [0, 100]. -/
theorem c7_quality_score (t : Table) (h : 0 < t.nrows) :
    assess_data_quality_score t
      = max 0 (100 - 10 * ((highMissingCols t).length : Rat)
          - 20 * ((t.duplicatedCount : Rat) / (t.nrows : Rat))
          - 5 * ((constantCols t).length : Rat)) ∧
    0 ≤ assess_data_quality_score t ∧ assess_data_quality_score t ≤ 100 := by
  have ha : (0 : Rat) ≤ ((highMissingCols t).length : Rat) * 10 := by positivity
  have hb : (0 : Rat) ≤ ((t.duplicatedCount : Rat) / (t.nrows : Rat)) * 20 := by
    positivity
  have hc : (0 : Rat) ≤ ((constantCols t).length : Rat) * 5 := by positivity
  refine ⟨?_, ?_, ?_⟩
  · unfold assess_data_quality_score
    congr 1
    ring
  · exact le_max_left 0 _
  · exact max_le (by norm_num) (by linarith)

/-- C7 witness: a concrete 3-row table with one high-missing column
(g: two of three missing), one duplicate row and one constant column. -/
theorem c7_witness :
    0 < (⟨[("g", [Cell.na, Cell.na, Cell.str "A"]),
           ("k", [Cell.num 1, Cell.num 1, Cell.num 1])]⟩ : Table).nrows ∧
    (assess_data_quality_score
        ⟨[("g", [Cell.na, Cell.na, Cell.str "A"]),
          ("k", [Cell.num 1, Cell.num 1, Cell.num 1])]⟩
      = max 0 (100 - 10 * ((highMissingCols
            ⟨[("g", [Cell.na, Cell.na, Cell.str "A"]),
              ("k", [Cell.num 1, Cell.num 1, Cell.num 1])]⟩).length : Rat)
          - 20 * (((⟨[("g", [Cell.na, Cell.na, Cell.str "A"]),
              ("k", [Cell.num 1, Cell.num 1, Cell.num 1])]⟩ : Table).duplicatedCount : Rat)
            / ((⟨[("g", [Cell.na, Cell.na, Cell.str "A"]),
              ("k", [Cell.num 1, Cell.num 1, Cell.num 1])]⟩ : Table).nrows : Rat))
          - 5 * ((constantCols
            ⟨[("g", [Cell.na, Cell.na, Cell.str "A"]),
              ("k", [Cell.num 1, Cell.num 1, Cell.num 1])]⟩).length : Rat)) ∧
      0 ≤ assess_data_quality_score
        ⟨[("g", [Cell.na, Cell.na, Cell.str "A"]),
          ("k", [Cell.num 1, Cell.num 1, Cell.num 1])]⟩ ∧
      assess_data_quality_score
        ⟨[("g", [Cell.na, Cell.na, Cell.str "A"]),
          ("k", [Cell.num 1, Cell.num 1, Cell.num 1])]⟩ ≤ 100) :=
  ⟨by decide,
    c7_quality_score
      ⟨[("g", [Cell.na, Cell.na, Cell.str "A"]),
        ("k", [Cell.num 1, Cell.num 1, Cell.num 1])]⟩ (by decide)⟩

/-! ## FilterRowsBlock and TTestBlock execution (blocks.py) -/

/-- The declared parameter schema (name, required) of FilterRowsBlock. -/
def FilterRowsParameters : List (String × Bool) :=
  [("column", true), ("operator", true), ("value", true)]

/-- The declared parameter schema (name, required) of TTestBlock. -/
def TTestParameters : List (String × Bool) :=
  [("group_column", true), ("value_column", true), ("group1", true), ("group2", true)]

/-- `parameters.get(name) == s` for a string literal `s` (`None` or a
non-string object compares unequal). -/
def opIs (p : Option PVal) (s : String) : Bool :=
  match p with
  | some (PVal.str t) => t == s
  | _ => false

/-- The object used as a dataframe key, `str`-rendered (the KeyError
carries it; parameters are strings in practice, a missing one is
`None`). -/
def paramKey (p : Option PVal) : String :=
  pvalToStr (p.getD PVal.none)

/-- Decimal digits to a natural number; fails on a non-digit. -/
def natOfDigits (cs : List Char) : Option Nat :=
  cs.foldl (fun acc c =>
    acc.bind (fun n => if c.isDigit then some (10 * n + (c.toNat - 48)) else Option.none))
    (some 0)

/-- `float(s)` on plain decimal forms (optional sign, optional
fractional part); exponent / inf / whitespace forms occur in no
claim. -/
def parseFloat (s : String) : Except String Rat :=
  let sc :=
    match s.toList with
    | '-' :: rest => ((-1 : Rat), rest)
    | cs => ((1 : Rat), cs)
  let ip := sc.2.takeWhile (fun c => c != '.')
  let fp := (sc.2.dropWhile (fun c => c != '.')).drop 1
  match natOfDigits ip, natOfDigits fp with
  | some n, some f =>
    if ip.isEmpty && fp.isEmpty then .error "could not convert string to float"
    else .ok (sc.1 * ((n : Rat) + (f : Rat) / ((10 : Rat) ^ fp.length)))
  | _, _ => .error "could not convert string to float"

/-- `float(value)` on a parameter object: numbers pass through, bools
become 0/1, strings are parsed; None and frames raise TypeError. -/
def parseFloatP : Option PVal → Except String Rat
  | some (PVal.num q) => .ok q
  | some (PVal.bool b) => .ok (if b then 1 else 0)
  | some (PVal.str s) => parseFloat s
  | _ => .error "float() argument"

/-- Elementwise pandas comparison of a cell with a float; NaN compares
false (string cells would raise under these operators and occur in no
claim). -/
def cellCmp (op : Rat → Rat → Bool) (c : Cell) (q : Rat) : Bool :=
  match c with
  | .num r => op r q
  | _ => false

/-- Occurrence of `needle` as a contiguous sublist. -/
def hasSubList (needle : List Char) : List Char → Bool
  | [] => needle.isEmpty
  | c :: rest => needle.isPrefixOf (c :: rest) || hasSubList needle rest

/-- `astype(str).str.contains(needle)` with a literal needle. -/
def strHasSub (hay needle : String) : Bool :=
  hasSubList needle.toList hay.toList

/-- Boolean-mask row selection `data[mask]`. -/
def Table.filterMask (t : Table) (mask : List Bool) : Table :=
  ⟨t.cols.map (fun p => (p.1, applyMask mask p.2))⟩

/-- The body of `FilterRowsBlock.execute` after its three
`parameters.get` reads (an absent parameter is None): the operator
dispatch, whose final `else` passes the data through unchanged. -/
def filter_rows_core (data : Table) (column operator value : Option PVal) :
    Except String (List (String × PVal)) :=
  if opIs operator "==" then do
    let col ← data.column (paramKey column)
    pure [("data", PVal.table (data.filterMask
      (col.map (fun c => cellEqParam c (value.getD PVal.none)))))]
  else if opIs operator "!=" then do
    let col ← data.column (paramKey column)
    pure [("data", PVal.table (data.filterMask
      (col.map (fun c => !(cellEqParam c (value.getD PVal.none))))))]
  else if opIs operator ">" then do
    let col ← data.column (paramKey column)
    let q ← parseFloatP value
    pure [("data", PVal.table (data.filterMask
      (col.map (fun c => cellCmp (fun a b => decide (a > b)) c q))))]
  else if opIs operator "<" then do
    let col ← data.column (paramKey column)
    let q ← parseFloatP value
    pure [("data", PVal.table (data.filterMask
      (col.map (fun c => cellCmp (fun a b => decide (a < b)) c q))))]
  else if opIs operator ">=" then do
    let col ← data.column (paramKey column)
    let q ← parseFloatP value
    pure [("data", PVal.table (data.filterMask
      (col.map (fun c => cellCmp (fun a b => decide (a ≥ b)) c q))))]
  else if opIs operator "<=" then do
    let col ← data.column (paramKey column)
    let q ← parseFloatP value
    pure [("data", PVal.table (data.filterMask
      (col.map (fun c => cellCmp (fun a b => decide (a ≤ b)) c q))))]
  else if opIs operator "contains" then do
    let col ← data.column (paramKey column)
    pure [("data", PVal.table (data.filterMask
      (col.map (fun c => strHasSub (cellToStr c) (pvalToStr (value.getD PVal.none))))))]
  else
    pure [("data", PVal.table data)]

/-- `FilterRowsBlock.execute` on its bound data input. -/
def filter_rows_execute (data : Table) (params : List (String × PVal)) :
    Except String (List (String × PVal)) :=
  filter_rows_core data (alookup params "column") (alookup params "operator")
    (alookup params "value")

/-- `self.parameters[name]`: KeyError — modelled as the key string —
when the parameter is absent. -/
def reqParam (params : List (String × PVal)) (name : String) : Except String PVal :=
  match alookup params name with
  | some v => .ok v
  | Option.none => .error name

/-- `TTestBlock.execute` on its bound data input (the four dict
accesses are evaluated left to right before `t_test` is entered). -/
def t_test_block_execute (or : StatOracles) (data : Table)
    (params : List (String × PVal)) : Except String (List (String × TTestResult)) := do
  let gc ← reqParam params "group_column"
  let vc ← reqParam params "value_column"
  let g1 ← reqParam params "group1"
  let g2 ← reqParam params "group2"
  let r ← t_test or data (pvalToStr gc) (pvalToStr vc) g1 g2
  pure [("result", r)]

theorem alookup_map_overwrite {β : Type} (k n : String) (v : β) (h : k ≠ n)
    (l : List (String × β)) :
    alookup (l.map (fun p => if p.1 = k then (k, v) else p)) n = alookup l n := by
  induction l with
  | nil => rfl
  | cons p rest ih =>
    simp only [List.map_cons]
    by_cases hp : p.1 = k
    · rw [if_pos hp]
      simp only [alookup]
      rw [if_neg h, if_neg (show ¬p.1 = n from fun hn => h (hp.symm.trans hn))]
      exact ih
    · rw [if_neg hp]
      simp only [alookup]
      by_cases hn : p.1 = n
      · rw [if_pos hn, if_pos hn]
      · rw [if_neg hn, if_neg hn]
        exact ih

theorem alookup_append_single {β : Type} (k n : String) (v : β) (h : k ≠ n)
    (l : List (String × β)) :
    alookup (l ++ [(k, v)]) n = alookup l n := by
  induction l with
  | nil =>
    show alookup [(k, v)] n = Option.none
    simp only [alookup]
    rw [if_neg h]
  | cons p rest ih =>
    simp only [List.cons_append, alookup]
    rw [List.append_eq, ih]

theorem alookup_assocSet_ne {β : Type} (l : List (String × β)) (k n : String) (v : β)
    (h : k ≠ n) : alookup (assocSet l k v) n = alookup l n := by
  unfold assocSet
  by_cases ha : l.any (fun p => p.1 == k) = true
  · rw [if_pos ha]
    exact alookup_map_overwrite k n v h l
  · rw [if_neg ha]
    exact alookup_append_single k n v h l

theorem reqParam_assocSet_ne (l : List (String × PVal)) (k n : String) (v : PVal)
    (h : k ≠ n) : reqParam (assocSet l k v) n = reqParam l n := by
  unfold reqParam
  rw [alookup_assocSet_ne l k n v h]

/-- C8 counterexample: `operator` is declared required in
FilterRowsBlock's schema, yet executing the block without it raises
nothing — the `else` of the operator dispatch silently returns the
input data unchanged. -/
theorem c8_counterexample :
    ("operator", true) ∈ FilterRowsParameters ∧
    alookup [("column", PVal.str "g"), ("value", PVal.str "A")] "operator"
      = Option.none ∧
    filter_rows_execute c4Table [("column", PVal.str "g"), ("value", PVal.str "A")]
      = .ok [("data", PVal.table c4Table)] :=
  ⟨by decide, rfl, rfl⟩

/-- C8 (amended): no MissingParameterError class exists; what happens
on a missing required parameter is per-block.  TTestBlock reads
required parameters with `self.parameters[...]`, so a missing
`group_column` raises a KeyError naming the parameter;
FilterRowsBlock reads them with `.get` and a missing `operator`
silently passes the data through unchanged.  Configuring a parameter
name outside the schema is permitted and does not affect either
block's execution. -/
theorem c8_required_params :
    (("group_column", true) ∈ TTestParameters ∧
     ∀ (or : StatOracles) (data : Table) (params : List (String × PVal)),
       alookup params "group_column" = Option.none →
       t_test_block_execute or data params = .error "group_column") ∧
    (("operator", true) ∈ FilterRowsParameters ∧
     ∀ (data : Table) (params : List (String × PVal)),
       alookup params "operator" = Option.none →
       filter_rows_execute data params = .ok [("data", PVal.table data)]) ∧
    (∀ (data : Table) (params : List (String × PVal)) (k : String) (v : PVal),
       k ∉ FilterRowsParameters.map Prod.fst →
       filter_rows_execute data (assocSet params k v) = filter_rows_execute data params) ∧
    (∀ (or : StatOracles) (data : Table) (params : List (String × PVal))
       (k : String) (v : PVal),
       k ∉ TTestParameters.map Prod.fst →
       t_test_block_execute or data (assocSet params k v)
         = t_test_block_execute or data params) := by
  refine ⟨⟨by decide, ?_⟩, ⟨by decide, ?_⟩, ?_, ?_⟩
  · intro or data params h
    unfold t_test_block_execute
    have h1 : reqParam params "group_column" = .error "group_column" := by
      unfold reqParam
      rw [h]
    rw [h1]
    rfl
  · intro data params h
    unfold filter_rows_execute
    rw [h]
    rfl
  · intro data params k v hk
    simp only [FilterRowsParameters, List.map_cons, List.map_nil, List.mem_cons,
      List.not_mem_nil, or_false, not_or] at hk
    obtain ⟨h1, h2, h3⟩ := hk
    unfold filter_rows_execute
    rw [alookup_assocSet_ne params k "column" v h1,
      alookup_assocSet_ne params k "operator" v h2,
      alookup_assocSet_ne params k "value" v h3]
  · intro or data params k v hk
    simp only [TTestParameters, List.map_cons, List.map_nil, List.mem_cons,
      List.not_mem_nil, or_false, not_or] at hk
    obtain ⟨h1, h2, h3, h4⟩ := hk
    unfold t_test_block_execute
    rw [reqParam_assocSet_ne params k "group_column" v h1,
      reqParam_assocSet_ne params k "value_column" v h2,
      reqParam_assocSet_ne params k "group1" v h3,
      reqParam_assocSet_ne params k "group2" v h4]

/-- C8 witness: concrete instances of all four parts. -/
theorem c8_witness :
    t_test_block_execute c4Oracles c4Table [("value_column", PVal.str "v")]
      = .error "group_column" ∧
    filter_rows_execute c4Table [("column", PVal.str "g"), ("value", PVal.str "A")]
      = .ok [("data", PVal.table c4Table)] ∧
    filter_rows_execute c4Table
        (assocSet [("column", PVal.str "g"), ("value", PVal.str "A")] "bogus"
          (PVal.num 7))
      = filter_rows_execute c4Table [("column", PVal.str "g"), ("value", PVal.str "A")] ∧
    t_test_block_execute c4Oracles c4Table
        (assocSet [("value_column", PVal.str "v")] "bogus" (PVal.num 7))
      = t_test_block_execute c4Oracles c4Table [("value_column", PVal.str "v")] :=
  ⟨c8_required_params.1.2 c4Oracles c4Table [("value_column", PVal.str "v")] rfl,
   c8_required_params.2.1.2 c4Table [("column", PVal.str "g"), ("value", PVal.str "A")]
     rfl,
   c8_required_params.2.2.1 c4Table [("column", PVal.str "g"), ("value", PVal.str "A")]
     "bogus" (PVal.num 7) (by decide),
   c8_required_params.2.2.2 c4Oracles c4Table [("value_column", PVal.str "v")]
     "bogus" (PVal.num 7) (by decide)⟩

end Salcp
